import Mathlib

/-!
CCIA: thread-safe stack, thread-safe queue, hierarchical mutex, parallel
accumulate and sequential quicksort.

A shallow embedding of

* `src/ch03_sharing_data_between_threads/listing_3_5.cc` (`threadsafe_stack`),
* `src/ch04_synchronizing_concurrent_operations/listing_4_5.hpp` (`threadsafe_queue`),
* `src/ch03_sharing_data_between_threads/listing_3_8.h` (`hierarchical_mutex`),
* `src/ch03_sharing_data_between_threads/listing_3_7.cc` (the three global mutexes),
* `src/ch02_managing_threads/listing_2_9.cc` (`parallel_accumulate`),
* `src/ch04_synchronizing_concurrent_operations/listing_4_12.cc`
  (`sequential_quicksort`).

The `push`, `pop`, `try_pop` and `wait_and_pop` members of the two containers run
their whole body under a `std::lock_guard` / `std::unique_lock` on the container's
mutex, so a call is one atomic transition of the container's sequence; that
transition is what is embedded. The order of the mutex and condition-variable
operations inside `push` and inside the copy constructors is embedded separately,
as lists of events. A call ends in one of three ways, recorded by `Outcome`: it
returns, it throws, or the calling thread stays suspended.
-/

namespace CCIA

/-! ## Common vocabulary -/

/-- Exceptions thrown by the embedded code: `empty_stack` (listing 3.5) and
`std::logic_error("mutex hierarchy violated")` (listing 3.8). -/
inductive Exn where
  | empty_stack
  | logic_error
  deriving DecidableEq, Repr

/-- How a call ends: it returns a result, it throws, or the caller stays suspended. -/
inductive Outcome (α : Type) where
  | returned (a : α)
  | threw (e : Exn)
  | blocked
  deriving DecidableEq, Repr

/-- A `std::shared_ptr<T>` as the code uses it: null, or owning one `T`. -/
abbrev shared_ptr (T : Type) := Option T

/-- Which of the two overloads of a pop is called: the one writing through a
reference (`pop(T&)`) or the one returning a `std::shared_ptr<T>` (`pop()`). -/
inductive Overload where
  | by_ref
  | by_ptr
  deriving DecidableEq, Repr

/-! ## `threadsafe_stack` (listing 3.5) -/

/-- The member `std::stack<T> data`; the head of the list is the top of the stack. -/
structure threadsafe_stack (T : Type) where
  data : List T
  deriving DecidableEq, Repr

/-- The default constructor `threadsafe_stack() {}`. -/
def threadsafe_stack.new {T : Type} : threadsafe_stack T := { data := [] }

/-- The member `void push(T new_value)`: `data.push(std::move(new_value))`. -/
def threadsafe_stack.push {T : Type} (s : threadsafe_stack T) (new_value : T) :
    threadsafe_stack T :=
  { data := new_value :: s.data }

/-- The member `void pop(T &value)`: throws `empty_stack` when `data.empty()`, else
`value = data.top(); data.pop();`. The third component is the out-parameter after
the call. -/
def threadsafe_stack.pop_ref {T : Type} (s : threadsafe_stack T) (value : T) :
    Outcome Unit × threadsafe_stack T × T :=
  match s.data with
  | [] => (Outcome.threw Exn.empty_stack, s, value)
  | top :: rest => (Outcome.returned (), { data := rest }, top)

/-- The member `std::shared_ptr<T> pop()`: throws `empty_stack` when `data.empty()`,
else returns `std::make_shared<T>(data.top())` after `data.pop()`. -/
def threadsafe_stack.pop {T : Type} (s : threadsafe_stack T) :
    Outcome (shared_ptr T) × threadsafe_stack T :=
  match s.data with
  | [] => (Outcome.threw Exn.empty_stack, s)
  | top :: rest => (Outcome.returned (some top), { data := rest })

/-- The member `bool empty() const`. -/
def threadsafe_stack.empty {T : Type} (s : threadsafe_stack T) : Bool :=
  s.data.isEmpty

/-- Pushing `x1, ..., xn` one after the other. -/
def threadsafe_stack.push_all {T : Type} (s : threadsafe_stack T) :
    List T → threadsafe_stack T
  | [] => s
  | x :: xs => (s.push x).push_all xs

/-- A run of pops, each through the named overload, by one caller whose variable
`value` is the out-parameter of the `pop(T&)` calls. The result is the list of
delivered values in call order and the final stack, or `none` as soon as a pop
throws (or hands back a null pointer, which `pop()` never does). -/
def threadsafe_stack.pop_seq {T : Type} :
    List Overload → threadsafe_stack T → T → Option (List T × threadsafe_stack T)
  | [], s, _ => some ([], s)
  | Overload.by_ref :: ks, s, value =>
    match s.pop_ref value with
    | (Outcome.returned _, s', v) =>
      (threadsafe_stack.pop_seq ks s' v).map (fun r => (v :: r.1, r.2))
    | _ => none
  | Overload.by_ptr :: ks, s, value =>
    match s.pop with
    | (Outcome.returned (some v), s') =>
      (threadsafe_stack.pop_seq ks s' value).map (fun r => (v :: r.1, r.2))
    | _ => none

/-! ## `threadsafe_queue` (listing 4.5) -/

/-- The member `std::queue<T> data_queue`; the head of the list is the front, and
`std::queue::push` appends at the back. -/
structure threadsafe_queue (T : Type) where
  data_queue : List T
  deriving DecidableEq, Repr

/-- The default constructor `threadsafe_queue() {}`. -/
def threadsafe_queue.new {T : Type} : threadsafe_queue T := { data_queue := [] }

/-- The member `void push(T new_value)`: `data_queue.push(new_value)` (followed by
`data_cond.notify_one()`, which does not touch the sequence). -/
def threadsafe_queue.push {T : Type} (q : threadsafe_queue T) (new_value : T) :
    threadsafe_queue T :=
  { data_queue := q.data_queue ++ [new_value] }

/-- The member `bool try_pop(T &value)`: `false` when `data_queue.empty()`, else
`value = data_queue.front(); data_queue.pop(); return true;`. The third component
is the out-parameter after the call. -/
def threadsafe_queue.try_pop_ref {T : Type} (q : threadsafe_queue T) (value : T) :
    Outcome Bool × threadsafe_queue T × T :=
  match q.data_queue with
  | [] => (Outcome.returned false, q, value)
  | front :: rest => (Outcome.returned true, { data_queue := rest }, front)

/-- The member `std::shared_ptr<T> try_pop()`: a null pointer when
`data_queue.empty()`, else `std::make_shared<T>(data_queue.front())` after
`data_queue.pop()`. -/
def threadsafe_queue.try_pop {T : Type} (q : threadsafe_queue T) :
    Outcome (shared_ptr T) × threadsafe_queue T :=
  match q.data_queue with
  | [] => (Outcome.returned none, q)
  | front :: rest => (Outcome.returned (some front), { data_queue := rest })

/-- The member `bool empty() const`. -/
def threadsafe_queue.empty {T : Type} (q : threadsafe_queue T) : Bool :=
  q.data_queue.isEmpty

/-- An operation some other thread completes on the queue while the caller of
`wait_and_pop` is suspended inside `data_cond.wait` (the mutex is released there). -/
inductive OtherOp (T : Type) where
  | push (x : T)
  | pop
  deriving DecidableEq, Repr

/-- The effect on the sequence of an operation of another thread; a pop of another
thread on an empty queue removes nothing. -/
def OtherOp.apply {T : Type} : OtherOp T → threadsafe_queue T → threadsafe_queue T
  | OtherOp.push x, q => q.push x
  | OtherOp.pop, q => (q.try_pop).2

/-- What the other threads do during one suspension of the waiter, in order. The
empty batch is a spurious wakeup, `[push x]` a notified one, `[push x, pop]` a
stolen one. -/
def run_others {T : Type} : List (OtherOp T) → threadsafe_queue T → threadsafe_queue T
  | [], q => q
  | op :: ops, q => run_others ops (op.apply q)

/-- The member `void wait_and_pop(T &value)`. `data_cond.wait(lk, pred)` is
`while (!pred()) wait(lk);` with `pred = !data_queue.empty()`: the predicate is
tested first; when it fails the caller suspends, the other threads run the next
batch of `wakeups`, the caller wakes and tests again. When the predicate holds,
`value = data_queue.front(); data_queue.pop();`. With the predicate false and no
wakeup left the caller is still suspended: `Outcome.blocked`. -/
def threadsafe_queue.wait_and_pop_ref {T : Type} :
    List (List (OtherOp T)) → threadsafe_queue T → T → Outcome Unit × threadsafe_queue T × T
  | [], q, value =>
    match q.data_queue with
    | [] => (Outcome.blocked, q, value)
    | front :: rest => (Outcome.returned (), { data_queue := rest }, front)
  | batch :: wakeups, q, value =>
    match q.data_queue with
    | [] => threadsafe_queue.wait_and_pop_ref wakeups (run_others batch q) value
    | front :: rest => (Outcome.returned (), { data_queue := rest }, front)

/-- The member `std::shared_ptr<T> wait_and_pop()`: the same wait, then
`std::make_shared<T>(data_queue.front())` and `data_queue.pop()`. -/
def threadsafe_queue.wait_and_pop {T : Type} :
    List (List (OtherOp T)) → threadsafe_queue T → Outcome (shared_ptr T) × threadsafe_queue T
  | [], q =>
    match q.data_queue with
    | [] => (Outcome.blocked, q)
    | front :: rest => (Outcome.returned (some front), { data_queue := rest })
  | batch :: wakeups, q =>
    match q.data_queue with
    | [] => threadsafe_queue.wait_and_pop wakeups (run_others batch q)
    | front :: rest => (Outcome.returned (some front), { data_queue := rest })

/-- The sequence after the other threads ran the first `k` batches of `wakeups`. -/
def after_batches {T : Type} :
    Nat → List (List (OtherOp T)) → threadsafe_queue T → threadsafe_queue T
  | 0, _, q => q
  | _ + 1, [], q => q
  | k + 1, batch :: wakeups, q => after_batches k wakeups (run_others batch q)

/-- Pushing `x1, ..., xn` one after the other. -/
def threadsafe_queue.push_all {T : Type} (q : threadsafe_queue T) :
    List T → threadsafe_queue T
  | [] => q
  | x :: xs => (q.push x).push_all xs

/-- The four ways to pop; the waiting ones carry the wakeups that would occur if
the caller had to suspend. -/
inductive PopCall (T : Type) where
  | try_pop_ref
  | try_pop
  | wait_and_pop_ref (wakeups : List (List (OtherOp T)))
  | wait_and_pop (wakeups : List (List (OtherOp T)))

/-- One pop call by a caller whose variable `value` is the out-parameter of the
reference overloads. `none`: the call has not returned (the caller is suspended).
Otherwise the delivered value if any (`try_pop` may return `false` or a null
pointer), the queue and the caller's variable after the call. -/
def PopCall.run {T : Type} :
    PopCall T → threadsafe_queue T → T → Option (Option T × threadsafe_queue T × T)
  | PopCall.try_pop_ref, q, value =>
    match q.try_pop_ref value with
    | (Outcome.returned true, q', v) => some (some v, q', v)
    | (Outcome.returned false, q', v) => some (none, q', v)
    | _ => none
  | PopCall.try_pop, q, value =>
    match q.try_pop with
    | (Outcome.returned p, q') => some (p, q', value)
    | _ => none
  | PopCall.wait_and_pop_ref wakeups, q, value =>
    match threadsafe_queue.wait_and_pop_ref wakeups q value with
    | (Outcome.returned _, q', v) => some (some v, q', v)
    | _ => none
  | PopCall.wait_and_pop wakeups, q, value =>
    match threadsafe_queue.wait_and_pop wakeups q with
    | (Outcome.returned p, q') => some (p, q', value)
    | _ => none

/-- A run of pop calls by one thread, nothing else touching the queue in between:
the values delivered, in call order, and the final queue; `none` when a call does
not return or a `try_pop` delivers nothing. -/
def pop_seq {T : Type} :
    List (PopCall T) → threadsafe_queue T → T → Option (List T × threadsafe_queue T)
  | [], q, _ => some ([], q)
  | c :: cs, q, value =>
    match c.run q value with
    | some (some v, q', value') => (pop_seq cs q' value').map (fun r => (v :: r.1, r.2))
    | _ => none

/-- One atomic operation of an interleaving on one queue. A pop through a
reference carries the content of the caller's variable before the call; a
`wait_and_pop` stands at the point where it completes (its last test of the
predicate and the removal, done without releasing the mutex in between). -/
inductive Event (T : Type) where
  | push (x : T)
  | try_pop_ref (value : T)
  | try_pop
  | wait_and_pop_ref (value : T)
  | wait_and_pop
  deriving DecidableEq, Repr

/-- The event is a push. -/
def Event.is_push {T : Type} : Event T → Bool
  | Event.push _ => true
  | _ => false

/-- The event is one of the two `try_pop` overloads. -/
def Event.is_try_pop {T : Type} : Event T → Bool
  | Event.try_pop_ref _ => true
  | Event.try_pop => true
  | _ => false

/-- One event on the queue: `none` when the event cannot happen in this state (a
`wait_and_pop` cannot complete on an empty queue); otherwise the value it delivers,
if any, and the queue after it. -/
def Event.step {T : Type} : Event T → threadsafe_queue T → Option (Option T × threadsafe_queue T)
  | Event.push x, q => some (none, q.push x)
  | Event.try_pop_ref value, q =>
    (PopCall.try_pop_ref.run q value).map (fun r => (r.1, r.2.1))
  | Event.try_pop, q =>
    match q.try_pop with
    | (Outcome.returned p, q') => some (p, q')
    | _ => none
  | Event.wait_and_pop_ref value, q =>
    ((PopCall.wait_and_pop_ref []).run q value).map (fun r => (r.1, r.2.1))
  | Event.wait_and_pop, q =>
    match threadsafe_queue.wait_and_pop [] q with
    | (Outcome.returned p, q') => some (p, q')
    | _ => none

/-- An interleaving run from a queue state: the values delivered by the pops, in
completion order, and the final queue; `none` when the interleaving is not a
possible execution. -/
def interleave {T : Type} :
    List (Event T) → threadsafe_queue T → Option (List T × threadsafe_queue T)
  | [], q => some ([], q)
  | e :: es, q =>
    match e.step q with
    | none => none
    | some (none, q') => interleave es q'
    | some (some v, q') => (interleave es q').map (fun r => (v :: r.1, r.2))

/-- The values pushed by an interleaving, in push order. -/
def pushed {T : Type} : List (Event T) → List T
  | [] => []
  | Event.push x :: es => x :: pushed es
  | _ :: es => pushed es

/-- The number of pop operations (of any kind) in an interleaving. -/
def pops_completed {T : Type} (es : List (Event T)) : Nat :=
  (es.filter (fun e => !e.is_push)).length

/-! ## `hierarchical_mutex` (listing 3.8) -/

/-- The value `std::numeric_limits<unsigned long>::max()` for a 64-bit
`unsigned long`. -/
def ULONG_MAX : Nat := 2 ^ 64 - 1

/-- A `std::mutex`: free, or owned by the thread with the given id. -/
structure std_mutex where
  owner : Option Nat
  deriving DecidableEq, Repr

/-- The call `std::mutex::lock` by thread `tid`: acquires a free mutex; `none`
when the mutex is owned, the caller then stays suspended. -/
def std_mutex.lock (m : std_mutex) (tid : Nat) : Option std_mutex :=
  match m.owner with
  | none => some { owner := some tid }
  | some _ => none

/-- The call `std::mutex::try_lock` by thread `tid`. -/
def std_mutex.try_lock (m : std_mutex) (tid : Nat) : Bool × std_mutex :=
  match m.owner with
  | none => (true, { owner := some tid })
  | some _ => (false, m)

/-- The call `std::mutex::unlock`: the mutex is free afterwards. C++ defines the
call only for the owning thread; what is proved below about an `unlock()` of a
`hierarchical_mutex` the caller does not own concerns the test and the assignment
that `hierarchical_mutex::unlock` executes before it reaches this call, and does
not depend on the state of the mutex after it. -/
def std_mutex.unlock (_m : std_mutex) (_tid : Nat) : std_mutex :=
  { owner := none }

/-- The data members of a `hierarchical_mutex` object. -/
structure hierarchical_mutex where
  hierarchy_value : Nat
  previous_hierarchy_value : Nat
  internal_mutex : std_mutex
  deriving DecidableEq, Repr

/-- The constructor `explicit hierarchical_mutex(unsigned long value)`. -/
def hierarchical_mutex.new (value : Nat) : hierarchical_mutex :=
  { hierarchy_value := value % 2 ^ 64,
    previous_hierarchy_value := 0,
    internal_mutex := { owner := none } }

/-- The member `check_for_hierarchy_violation`; the second argument is the calling
thread's `this_thread_hierarchy_value`. -/
def hierarchical_mutex.check_for_hierarchy_violation (self : hierarchical_mutex)
    (this_thread_hierarchy_value : Nat) : Outcome Unit :=
  if this_thread_hierarchy_value ≤ self.hierarchy_value then
    Outcome.threw Exn.logic_error
  else
    Outcome.returned ()

/-- The member `update_hierarchy_value`: the object and the calling thread's
`this_thread_hierarchy_value` after it. -/
def hierarchical_mutex.update_hierarchy_value (self : hierarchical_mutex)
    (this_thread_hierarchy_value : Nat) : hierarchical_mutex × Nat :=
  ({ self with previous_hierarchy_value := this_thread_hierarchy_value },
    self.hierarchy_value)

/-- The member `void lock()` called by thread `tid`: outcome, object and the
thread's `this_thread_hierarchy_value` after the call. -/
def hierarchical_mutex.lock (self : hierarchical_mutex) (tid : Nat)
    (this_thread_hierarchy_value : Nat) : Outcome Unit × hierarchical_mutex × Nat :=
  match self.check_for_hierarchy_violation this_thread_hierarchy_value with
  | Outcome.returned _ =>
    match self.internal_mutex.lock tid with
    | none => (Outcome.blocked, self, this_thread_hierarchy_value)
    | some mtx =>
      (Outcome.returned (),
        hierarchical_mutex.update_hierarchy_value { self with internal_mutex := mtx }
          this_thread_hierarchy_value)
  | Outcome.threw e => (Outcome.threw e, self, this_thread_hierarchy_value)
  | Outcome.blocked => (Outcome.blocked, self, this_thread_hierarchy_value)

/-- The member `bool try_lock()` called by thread `tid`. -/
def hierarchical_mutex.try_lock (self : hierarchical_mutex) (tid : Nat)
    (this_thread_hierarchy_value : Nat) : Outcome Bool × hierarchical_mutex × Nat :=
  match self.check_for_hierarchy_violation this_thread_hierarchy_value with
  | Outcome.returned _ =>
    match self.internal_mutex.try_lock tid with
    | (false, mtx) =>
      (Outcome.returned false, { self with internal_mutex := mtx }, this_thread_hierarchy_value)
    | (true, mtx) =>
      (Outcome.returned true,
        hierarchical_mutex.update_hierarchy_value { self with internal_mutex := mtx }
          this_thread_hierarchy_value)
  | Outcome.threw e => (Outcome.threw e, self, this_thread_hierarchy_value)
  | Outcome.blocked => (Outcome.blocked, self, this_thread_hierarchy_value)

/-- The member `void unlock()` called by thread `tid`. -/
def hierarchical_mutex.unlock (self : hierarchical_mutex) (tid : Nat)
    (this_thread_hierarchy_value : Nat) : Outcome Unit × hierarchical_mutex × Nat :=
  if this_thread_hierarchy_value ≠ self.hierarchy_value then
    (Outcome.threw Exn.logic_error, self, this_thread_hierarchy_value)
  else
    (Outcome.returned (),
      { self with internal_mutex := self.internal_mutex.unlock tid },
      self.previous_hierarchy_value)

/-- The state the three members act on: the `thread_local`
`this_thread_hierarchy_value` of every thread (by thread id) and the
`hierarchical_mutex` objects (by identity). -/
structure World where
  this_thread_hierarchy_value : Nat → Nat
  mutexes : Nat → hierarchical_mutex

/-- Writes back what a member call on object `self` by thread `tid` left in the
object and in the thread's `this_thread_hierarchy_value`. -/
def World.put (w : World) (tid self : Nat) (r : hierarchical_mutex × Nat) : World :=
  { this_thread_hierarchy_value := Function.update w.this_thread_hierarchy_value tid r.2,
    mutexes := Function.update w.mutexes self r.1 }

/-- Thread `tid` calls `lock()` on the object `self`. -/
def World.lock (w : World) (tid self : Nat) : Outcome Unit × World :=
  let r := (w.mutexes self).lock tid (w.this_thread_hierarchy_value tid)
  (r.1, w.put tid self r.2)

/-- Thread `tid` calls `try_lock()` on the object `self`. -/
def World.try_lock (w : World) (tid self : Nat) : Outcome Bool × World :=
  let r := (w.mutexes self).try_lock tid (w.this_thread_hierarchy_value tid)
  (r.1, w.put tid self r.2)

/-- Thread `tid` calls `unlock()` on the object `self`. -/
def World.unlock (w : World) (tid self : Nat) : Outcome Unit × World :=
  let r := (w.mutexes self).unlock tid (w.this_thread_hierarchy_value tid)
  (r.1, w.put tid self r.2)

/-- Thread `tid` owns the internal mutex of the object `self`. -/
def World.owns (w : World) (tid self : Nat) : Bool :=
  decide ((w.mutexes self).internal_mutex.owner = some tid)

/-- The hierarchy value of the object `self`. -/
def World.value (w : World) (self : Nat) : Nat :=
  (w.mutexes self).hierarchy_value

/-- A call of one of the three public members on the object `self`. -/
inductive Call where
  | lock (self : Nat)
  | try_lock (self : Nat)
  | unlock (self : Nat)
  deriving DecidableEq, Repr

/-- One thread's run: the world, and (a ghost of the proof, the code keeps no such
list) the locks the thread acquired and has not released, most recent first. -/
structure ThreadRun where
  world : World
  held : List Nat

/-- One call by thread `tid`: its outcome (`returned true` for a `void` return)
and the run after it. A `lock()` that returns and a `try_lock()` that returns
`true` put the object in front of `held`; an `unlock()` that returns takes it out. -/
def ThreadRun.exec (tid : Nat) (s : ThreadRun) : Call → Outcome Bool × ThreadRun
  | Call.lock self =>
    match s.world.lock tid self with
    | (Outcome.returned _, w) => (Outcome.returned true, { world := w, held := self :: s.held })
    | (Outcome.threw e, w) => (Outcome.threw e, { world := w, held := s.held })
    | (Outcome.blocked, w) => (Outcome.blocked, { world := w, held := s.held })
  | Call.try_lock self =>
    match s.world.try_lock tid self with
    | (Outcome.returned true, w) =>
      (Outcome.returned true, { world := w, held := self :: s.held })
    | (o, w) => (o, { world := w, held := s.held })
  | Call.unlock self =>
    match s.world.unlock tid self with
    | (Outcome.returned _, w) =>
      (Outcome.returned true, { world := w, held := s.held.erase self })
    | (Outcome.threw e, w) => (Outcome.threw e, { world := w, held := s.held })
    | (Outcome.blocked, w) => (Outcome.blocked, { world := w, held := s.held })

/-- The calls of `cs` made one after the other by thread `tid`; a call that blocks
never returns, so the calls after it are not made. -/
def ThreadRun.run (tid : Nat) : ThreadRun → List Call → ThreadRun
  | s, [] => s
  | s, c :: cs =>
    match s.exec tid c with
    | (Outcome.blocked, s') => s'
    | (_, s') => ThreadRun.run tid s' cs

/-- Every `unlock()` of the run is made on an object whose internal mutex the
thread owns at that moment (what `std::mutex::unlock` requires, and what a
`std::lock_guard` guarantees). -/
def ThreadRun.unlocks_owned (tid : Nat) : ThreadRun → List Call → Bool
  | _, [] => true
  | s, c :: cs =>
    (match c with
      | Call.unlock self => s.world.owns tid self
      | _ => true) &&
    (match s.exec tid c with
      | (Outcome.blocked, _) => true
      | (_, s') => ThreadRun.unlocks_owned tid s' cs)

/-- A start of a run of thread `tid`: the thread holds no lock and its level is
the initial value of `this_thread_hierarchy_value`. -/
def ThreadRun.initial (tid : Nat) (s : ThreadRun) : Prop :=
  s.held = [] ∧ s.world.this_thread_hierarchy_value tid = ULONG_MAX ∧
    ∀ m, s.world.owns tid m = false

/-- The level the thread should have: the hierarchy value of the most recently
acquired lock it still holds, `ULONG_MAX` when it holds none. -/
def ThreadRun.expected_level (s : ThreadRun) : Nat :=
  match s.held with
  | [] => ULONG_MAX
  | m :: _ => s.world.value m

/-- The object a call is made on. -/
def Call.target : Call → Nat
  | Call.lock self => self
  | Call.try_lock self => self
  | Call.unlock self => self

/-- The bookkeeping along the held locks, most recent first: the level is the
hierarchy value of the most recent one, whose saved previous level is larger and
is the level the rest of the list accounts for; with no lock held the level is
`ULONG_MAX`. -/
def chain (w : World) : Nat → List Nat → Prop
  | level, [] => level = ULONG_MAX
  | level, m :: rest =>
    level = w.value m ∧ w.value m < (w.mutexes m).previous_hierarchy_value ∧
      chain w (w.mutexes m).previous_hierarchy_value rest

/-- The invariant of one thread's run: the bookkeeping of `chain` holds for the
thread's level and its held locks, and the held locks are exactly the objects
whose internal mutex the thread owns. -/
def ThreadRun.inv (tid : Nat) (s : ThreadRun) : Prop :=
  chain s.world (s.world.this_thread_hierarchy_value tid) s.held ∧
    ∀ m, s.world.owns tid m = true ↔ m ∈ s.held

/-- The outcomes of the calls of `cs` made one after the other by thread `tid`,
in call order; the list ends with the first call that blocks. -/
def ThreadRun.outcomes (tid : Nat) : ThreadRun → List Call → List (Outcome Bool)
  | _, [] => []
  | s, c :: cs =>
    match s.exec tid c with
    | (Outcome.blocked, _) => [Outcome.blocked]
    | (o, s') => o :: ThreadRun.outcomes tid s' cs

/-- The call sequence is properly nested over the locks `opened` so far (innermost
first): every `unlock()` is on the innermost lock still open, and nothing is left
open at the end. A `try_lock()` opens a lock like a `lock()`. -/
def properly_nested : List Nat → List Call → Bool
  | opened, [] => opened.isEmpty
  | opened, Call.lock m :: cs => properly_nested (m :: opened) cs
  | opened, Call.try_lock m :: cs => properly_nested (m :: opened) cs
  | [], Call.unlock _ :: _ => false
  | top :: opened, Call.unlock m :: cs => decide (m = top) && properly_nested opened cs

/-- The hierarchy value an acquisition has to stay below: that of the innermost
open lock, `ULONG_MAX` when none is open. -/
def innermost_value (value : Nat → Nat) : List Nat → Nat
  | [] => ULONG_MAX
  | top :: _ => value top

/-- Along the call sequence every acquisition is of an object whose hierarchy
value is below that of the innermost lock open at that point. -/
def descends (value : Nat → Nat) : List Nat → List Call → Bool
  | _, [] => true
  | opened, Call.lock m :: cs =>
    decide (value m < innermost_value value opened) && descends value (m :: opened) cs
  | opened, Call.try_lock m :: cs =>
    decide (value m < innermost_value value opened) && descends value (m :: opened) cs
  | opened, Call.unlock _ :: cs => descends value opened.tail cs

/-- The objects of listing 3.7: `high_level_mutex(10000)` is object 0,
`low_level_mutex(5000)` object 1, `other_mutex(6000)` object 2; every thread starts
with `this_thread_hierarchy_value = ULONG_MAX`. -/
def listing_3_7 : World :=
  { this_thread_hierarchy_value := fun _ => ULONG_MAX,
    mutexes := fun i =>
      match i with
      | 0 => hierarchical_mutex.new 10000
      | 1 => hierarchical_mutex.new 5000
      | 2 => hierarchical_mutex.new 6000
      | _ => hierarchical_mutex.new 0 }

/-- Two distinct objects constructed with the same hierarchy value: `A(5000)` is
object 0, `B(5000)` object 1. -/
def same_value_world : World :=
  { this_thread_hierarchy_value := fun _ => ULONG_MAX,
    mutexes := fun _ => hierarchical_mutex.new 5000 }

/-! ## Several threads on the `hierarchical_mutex` objects -/

/-- One call by thread `tid` on the shared world: its outcome (`returned true` for
a `void` return) and the world after it. -/
def World.call (w : World) (tid : Nat) : Call → Outcome Bool × World
  | Call.lock self =>
    match w.lock tid self with
    | (Outcome.returned _, w') => (Outcome.returned true, w')
    | (Outcome.threw e, w') => (Outcome.threw e, w')
    | (Outcome.blocked, w') => (Outcome.blocked, w')
  | Call.try_lock self => w.try_lock tid self
  | Call.unlock self =>
    match w.unlock tid self with
    | (Outcome.returned _, w') => (Outcome.returned true, w')
    | (Outcome.threw e, w') => (Outcome.threw e, w')
    | (Outcome.blocked, w') => (Outcome.blocked, w')

/-- An interleaving of the calls of any number of threads: each entry names the
thread whose call takes effect next. A `lock()` takes effect when it acquires the
internal mutex; one that finds the mutex owned leaves the world as it is (the
thread waits). -/
def World.schedule (w : World) : List (Nat × Call) → World
  | [] => w
  | (tid, c) :: rest => World.schedule (w.call tid c).2 rest

/-- Every `unlock()` of the interleaving is made by the thread that owns the
internal mutex of the object at that moment (scoped use). -/
def World.scoped (w : World) : List (Nat × Call) → Bool
  | [] => true
  | (tid, c) :: rest =>
    (match c with
      | Call.unlock self => w.owns tid self
      | _ => true) &&
    World.scoped (w.call tid c).2 rest

/-- The world at program start: every thread's `this_thread_hierarchy_value` has
its initial value `ULONG_MAX` and every internal mutex is free. -/
def World.fresh (w : World) : Prop :=
  (∀ tid, w.this_thread_hierarchy_value tid = ULONG_MAX) ∧
    ∀ m, (w.mutexes m).internal_mutex.owner = none

/-- Thread `t` waits for thread `t'`: a `lock()` by `t` on some object is blocked,
and `t'` owns the internal mutex of that object. -/
def World.waits_for (w : World) (t t' : Nat) : Prop :=
  ∃ m, (w.lock t m).1 = Outcome.blocked ∧ w.owns t' m = true

/-- A world whose objects are all constructed with the hierarchy value
`ULONG_MAX`. -/
def max_value_world : World :=
  { this_thread_hierarchy_value := fun _ => ULONG_MAX,
    mutexes := fun _ => hierarchical_mutex.new ULONG_MAX }

/-! ## Mutex and condition-variable events of the container members -/

/-- Whose mutex an event is on, in a member of a container: the member `mtx` of
the object itself (`own`) or `other.mtx` of the argument of a copy constructor. -/
inductive Mtx where
  | own
  | other
  deriving DecidableEq, Repr

/-- The synchronisation-relevant statements a member executes, in program order. -/
inductive SyncEvent (T : Type) where
  | lock (m : Mtx)
  | unlock (m : Mtx)
  | push_back (v : T)
  | copy_from_other
  | notify_one
  | notify_all
  deriving DecidableEq, Repr

/-- A block under `std::lock_guard<std::mutex> lk(m);`: the constructor locks `m`,
the statements of the block follow, the destructor unlocks `m` at the end of the
scope. -/
def lock_guard {T : Type} (m : Mtx) (body : List (SyncEvent T)) : List (SyncEvent T) :=
  SyncEvent.lock m :: body ++ [SyncEvent.unlock m]

/-- The copy constructor `threadsafe_stack(const threadsafe_stack &other)` of
listing 3.5: `std::lock_guard<std::mutex> lck(mtx); data = other.data;`. -/
def threadsafe_stack.copy_events {T : Type} : List (SyncEvent T) :=
  lock_guard Mtx.own [SyncEvent.copy_from_other]

/-- The copy constructor `threadsafe_queue(const threadsafe_queue &other)` of
listing 4.5: `std::lock_guard<std::mutex> lk(other.mtx); data_queue = other.data_queue;`. -/
def threadsafe_queue.copy_events {T : Type} : List (SyncEvent T) :=
  lock_guard Mtx.other [SyncEvent.copy_from_other]

/-- The member `push` of `threadsafe_queue` with its synchronisation:
`std::lock_guard<std::mutex> lk(mtx); data_queue.push(new_value);
data_cond.notify_one();`. -/
def threadsafe_queue.push_events {T : Type} (new_value : T) : List (SyncEvent T) :=
  lock_guard Mtx.own [SyncEvent.push_back new_value, SyncEvent.notify_one]

/-- What the events act on: the object's own mutex and sequence, and the mutex and
sequence of `other`. -/
structure SyncState (T : Type) where
  mtx : std_mutex
  data : List T
  other_mtx : std_mutex
  other_data : List T
  deriving DecidableEq, Repr

/-- One event executed by thread `tid`; `none` when the thread has to wait for a
mutex. -/
def SyncEvent.exec {T : Type} (tid : Nat) : SyncEvent T → SyncState T → Option (SyncState T)
  | SyncEvent.lock Mtx.own, st => (st.mtx.lock tid).map (fun m => { st with mtx := m })
  | SyncEvent.lock Mtx.other, st =>
    (st.other_mtx.lock tid).map (fun m => { st with other_mtx := m })
  | SyncEvent.unlock Mtx.own, st => some { st with mtx := st.mtx.unlock tid }
  | SyncEvent.unlock Mtx.other, st => some { st with other_mtx := st.other_mtx.unlock tid }
  | SyncEvent.push_back v, st => some { st with data := st.data ++ [v] }
  | SyncEvent.copy_from_other, st => some { st with data := st.other_data }
  | SyncEvent.notify_one, st => some st
  | SyncEvent.notify_all, st => some st

/-- The events executed by thread `tid` one after the other, each recorded with
the state it was executed in, and the state reached; the record stops at an event
on which the thread has to wait. -/
def run_sync {T : Type} (tid : Nat) :
    List (SyncEvent T) → SyncState T → List (SyncEvent T × SyncState T) × SyncState T
  | [], st => ([], st)
  | e :: es, st =>
    match e.exec tid st with
    | none => ([], st)
    | some st' => ((e, st) :: (run_sync tid es st').1, (run_sync tid es st').2)

/-- Every read of `other`'s sequence in the record was made while thread `tid`
owned `other`'s mutex. -/
def reads_other_locked {T : Type} (tid : Nat) (log : List (SyncEvent T × SyncState T)) :
    Bool :=
  log.all (fun r =>
    match r.1 with
    | SyncEvent.copy_from_other => decide (r.2.other_mtx.owner = some tid)
    | _ => true)

/-- For every signal on the condition variable in the record: whether it was a
`notify_one`, and whether thread `tid` owned the queue's mutex when it signalled. -/
def signals {T : Type} (tid : Nat) (log : List (SyncEvent T × SyncState T)) :
    List (Bool × Bool) :=
  log.filterMap (fun r =>
    match r.1 with
    | SyncEvent.notify_one => some (true, decide (r.2.mtx.owner = some tid))
    | SyncEvent.notify_all => some (false, decide (r.2.mtx.owner = some tid))
    | _ => none)

/-! ## `parallel_accumulate` (listing 2.9) -/

/-- What stops a computation: an integer division by zero, or an iterator moved
past the end of its range. -/
inductive Fault where
  | division_by_zero
  | out_of_range
  deriving DecidableEq, Repr

/-- The call `std::accumulate(first, last, init)`: `init = init + *first` for
every element in order. `T` is the template's result type with its own addition:
`Int` for sums that stay in range, `ZMod (2 ^ 32)` (arithmetic modulo `2^32`) for
a 32-bit `int` whose sums wrap, as in the call made by `main`. -/
def std_accumulate {T : Type} [Add T] (range : List T) (init : T) : T :=
  range.foldl (fun acc x => acc + x) init

/-- The functor `accumulate_block`: `result = std::accumulate(first, last, result)`;
the value of `result` after the call. -/
def accumulate_block {T : Type} [Add T] (block : List T) (result : T) : T :=
  std_accumulate block result

/-- The loop of `parallel_accumulate` that starts the `num_threads - 1` threads:
each takes the next `block_size` elements (`std::advance(block_end, block_size)`)
from `block_start`. The result is the list of those blocks and what is left for
the calling thread. -/
def spawn_blocks {T : Type} :
    Nat → Nat → List T → Except Fault (List (List T) × List T)
  | 0, _, block_start => Except.ok ([], block_start)
  | n + 1, block_size, block_start =>
    if block_size ≤ block_start.length then
      match spawn_blocks n block_size (block_start.drop block_size) with
      | Except.ok (blocks, rest) => Except.ok (block_start.take block_size :: blocks, rest)
      | Except.error f => Except.error f
    else
      Except.error Fault.out_of_range

/-- The blocks `parallel_accumulate` hands out for a range when
`std::thread::hardware_concurrency()` returns `hardware_concurrency`: those of the
started threads followed by the block of the calling thread. All arithmetic is
that of `unsigned long`. -/
def parallel_blocks {T : Type} (hardware_concurrency : Nat) (range : List T) :
    Except Fault (List (List T)) :=
  let length := range.length % 2 ^ 64
  let min_per_thread := 25
  let max_threads := ((length + min_per_thread - 1) % 2 ^ 64) / min_per_thread
  let hardware_threads := hardware_concurrency % 2 ^ 32
  let num_threads := min (if hardware_threads ≠ 0 then hardware_threads else 2) max_threads
  if num_threads = 0 then
    Except.error Fault.division_by_zero
  else
    let block_size := length / num_threads
    match spawn_blocks (num_threads - 1) block_size range with
    | Except.ok (blocks, last_block) => Except.ok (blocks ++ [last_block])
    | Except.error f => Except.error f

/-- The function `parallel_accumulate(first, last, init)`: every block is summed
into its own slot of `results` (value-initialised, `T()`, which is 0), and after
the joins the slots are accumulated onto `init`. -/
def parallel_accumulate {T : Type} [Add T] [Zero T] (hardware_concurrency : Nat)
    (range : List T) (init : T) : Except Fault T :=
  match parallel_blocks hardware_concurrency range with
  | Except.ok blocks =>
    Except.ok (std_accumulate (blocks.map (fun block => accumulate_block block 0)) init)
  | Except.error f => Except.error f

/-! ## `sequential_quicksort` (listing 4.12) -/

/-- The library call `std::partition(first, last, pred)` on a `std::list`, as the
C++ standard specifies it: the elements are rearranged so that those satisfying
`pred` come before those that do not; `run` gives the two groups (before and from
the returned `divide_point`). The order inside a group is left to the
implementation, so the call is a parameter of the embedding. -/
structure std_partition (T : Type) where
  run : (T → Bool) → List T → List T × List T
  perm : ∀ pred xs, ((run pred xs).1 ++ (run pred xs).2).Perm xs
  front : ∀ pred xs x, x ∈ (run pred xs).1 → pred x = true
  back : ∀ pred xs x, x ∈ (run pred xs).2 → pred x = false

/-- A `std::partition` that keeps the relative order inside both groups. -/
def stable_partition (T : Type) : std_partition T where
  run := fun pred xs => (xs.filter pred, xs.filter (fun x => !pred x))
  perm := fun pred xs => List.filter_append_perm pred xs
  front := fun pred xs x h => (List.mem_filter.mp h).2
  back := fun pred xs x h => by simpa using (List.mem_filter.mp h).2

/-- The function `sequential_quicksort(std::list<T> input)`: the empty list is
returned as it is; otherwise the first element is spliced out as `pivot`, the rest
is partitioned by `t < pivot`, the part before `divide_point` (`lower_part`) and
the remaining `input` are sorted recursively, and the result is `new_lower`, then
`pivot`, then `new_higher`. -/
def sequential_quicksort {T : Type} [LinearOrder T] (partition : std_partition T)
    (input : List T) : List T :=
  match input with
  | [] => []
  | pivot :: rest =>
    sequential_quicksort partition (partition.run (fun t => decide (t < pivot)) rest).1
      ++ pivot ::
        sequential_quicksort partition (partition.run (fun t => decide (t < pivot)) rest).2
termination_by input.length
decreasing_by
  all_goals
    have key : ∀ (pred : T → Bool) (xs : List T),
        (partition.run pred xs).1.length ≤ xs.length ∧
          (partition.run pred xs).2.length ≤ xs.length := by
      intro pred xs
      have h := (partition.perm pred xs).length_eq
      simp only [List.length_append] at h
      omega
    simp only [List.length_cons]
    first
      | exact Nat.lt_succ_of_le (key _ _).1
      | exact Nat.lt_succ_of_le (key _ _).2

/-! ## Theorems: `threadsafe_stack` -/

theorem stack_push_all_data {T : Type} (xs : List T) (s : threadsafe_stack T) :
    (s.push_all xs).data = xs.reverse ++ s.data := by
  induction xs generalizing s with
  | nil => simp [threadsafe_stack.push_all]
  | cons x xs ih => simp [threadsafe_stack.push_all, ih, threadsafe_stack.push]

theorem stack_pop_seq_prefix {T : Type} (ks : List Overload) :
    ∀ (ys rest : List T) (value : T), ks.length = ys.length →
      threadsafe_stack.pop_seq ks { data := ys ++ rest } value
        = some (ys, { data := rest }) := by
  induction ks with
  | nil =>
    intro ys rest value h
    cases ys with
    | nil => simp [threadsafe_stack.pop_seq]
    | cons y ys => simp at h
  | cons k ks ih =>
    intro ys rest value h
    cases ys with
    | nil => simp at h
    | cons y ys =>
      have h' : ks.length = ys.length := by simpa using h
      cases k with
      | by_ref =>
        simp [threadsafe_stack.pop_seq, threadsafe_stack.pop_ref, ih ys rest y h']
      | by_ptr =>
        simp [threadsafe_stack.pop_seq, threadsafe_stack.pop, ih ys rest value h']

/-- C1: `push(x)` immediately followed by a pop, through either overload, delivers
`x` and leaves the stack content as it was before the push; and pushing `x1..xn`
onto any stack and then popping `n` times (any mix of the two overloads) delivers
`xn, ..., x1` in that order and restores the original content. -/
theorem threadsafe_stack_push_pop_roundtrip {T : Type} (s : threadsafe_stack T) :
    (∀ (x value : T),
        (s.push x).pop_ref value = (Outcome.returned (), s, x) ∧
        (s.push x).pop = (Outcome.returned (some x), s)) ∧
    (∀ (xs : List T) (ks : List Overload) (value : T), ks.length = xs.length →
        threadsafe_stack.pop_seq ks (s.push_all xs) value = some (xs.reverse, s)) := by
  refine ⟨fun x value => ⟨rfl, rfl⟩, ?_⟩
  intro xs ks value h
  have hd : s.push_all xs = { data := xs.reverse ++ s.data } := by
    have := stack_push_all_data xs s
    cases hs : s.push_all xs
    simp_all
  rw [hd, stack_pop_seq_prefix ks xs.reverse s.data value (by simpa using h)]

/-- C3: both pops throw `empty_stack` exactly when the stack is empty (so on a
freshly constructed stack); a throwing pop leaves the stack and the out-parameter
as they were; a pop that does not throw removes the top element, delivers it and
leaves the rest of the stack unchanged. -/
theorem threadsafe_stack_pop_empty_iff {T : Type} (s : threadsafe_stack T) (value : T) :
    (((s.pop_ref value).1 = Outcome.threw Exn.empty_stack ↔ s.data = []) ∧
      ((s.pop).1 = Outcome.threw Exn.empty_stack ↔ s.data = [])) ∧
    ((threadsafe_stack.new.pop_ref value).1 = Outcome.threw Exn.empty_stack ∧
      (threadsafe_stack.new (T := T)).pop.1 = Outcome.threw Exn.empty_stack) ∧
    (s.data = [] → s.pop_ref value = (Outcome.threw Exn.empty_stack, s, value) ∧
      s.pop = (Outcome.threw Exn.empty_stack, s)) ∧
    (∀ (top : T) (rest : List T), s.data = top :: rest →
      s.pop_ref value = (Outcome.returned (), { data := rest }, top) ∧
      s.pop = (Outcome.returned (some top), { data := rest })) := by
  cases s with
  | mk data =>
    cases data with
    | nil => simp [threadsafe_stack.pop_ref, threadsafe_stack.pop, threadsafe_stack.new]
    | cons a l => simp [threadsafe_stack.pop_ref, threadsafe_stack.pop, threadsafe_stack.new]

/-! ## Theorems: `threadsafe_queue`, one thread -/

theorem queue_push_all_data {T : Type} (xs : List T) (q : threadsafe_queue T) :
    (q.push_all xs).data_queue = q.data_queue ++ xs := by
  induction xs generalizing q with
  | nil => simp [threadsafe_queue.push_all]
  | cons x xs ih => simp [threadsafe_queue.push_all, ih, threadsafe_queue.push]

theorem wait_and_pop_ref_nonempty {T : Type}
    (wakeups : List (List (OtherOp T))) (front : T) (rest : List T) (value : T) :
    threadsafe_queue.wait_and_pop_ref wakeups { data_queue := front :: rest } value
      = (Outcome.returned (), { data_queue := rest }, front) := by
  cases wakeups <;> rfl

theorem wait_and_pop_nonempty {T : Type}
    (wakeups : List (List (OtherOp T))) (front : T) (rest : List T) :
    threadsafe_queue.wait_and_pop wakeups { data_queue := front :: rest }
      = (Outcome.returned (some front), { data_queue := rest }) := by
  cases wakeups <;> rfl

theorem pop_call_run_nonempty {T : Type} (c : PopCall T) (front : T) (rest : List T)
    (value : T) :
    ∃ value', c.run { data_queue := front :: rest } value
      = some (some front, { data_queue := rest }, value') := by
  cases c with
  | try_pop_ref => exact ⟨front, rfl⟩
  | try_pop => exact ⟨value, rfl⟩
  | wait_and_pop_ref wakeups =>
    exact ⟨front, by simp [PopCall.run, wait_and_pop_ref_nonempty]⟩
  | wait_and_pop wakeups =>
    exact ⟨value, by simp [PopCall.run, wait_and_pop_nonempty]⟩

theorem queue_pop_seq_prefix {T : Type} (cs : List (PopCall T)) :
    ∀ (ys rest : List T) (value : T), cs.length = ys.length →
      pop_seq cs { data_queue := ys ++ rest } value = some (ys, { data_queue := rest }) := by
  induction cs with
  | nil =>
    intro ys rest value h
    cases ys with
    | nil => simp [pop_seq]
    | cons y ys => simp at h
  | cons c cs ih =>
    intro ys rest value h
    cases ys with
    | nil => simp at h
    | cons y ys =>
      have h' : cs.length = ys.length := by simpa using h
      obtain ⟨value', hv⟩ := pop_call_run_nonempty c y (ys ++ rest) value
      simp [pop_seq, hv, ih ys rest value' h']

/-- C2: pushing `x1..xn` onto a queue with content `q` and then popping `|q| + n`
times, each pop through any of `try_pop(T&)`, `try_pop()`, `wait_and_pop(T&)`,
`wait_and_pop()`, delivers the elements of `q` followed by `x1, ..., xn` and
leaves the queue empty; and `push(x)` on an empty queue followed by any one of the
four pops delivers `x`. -/
theorem threadsafe_queue_fifo_roundtrip {T : Type} (q : threadsafe_queue T) :
    (∀ (xs : List T) (cs : List (PopCall T)) (value : T),
        cs.length = q.data_queue.length + xs.length →
        pop_seq cs (q.push_all xs) value
          = some (q.data_queue ++ xs, threadsafe_queue.new)) ∧
    (∀ (x value : T) (wakeups : List (List (OtherOp T))),
        (threadsafe_queue.new.push x).try_pop_ref value
          = (Outcome.returned true, threadsafe_queue.new, x) ∧
        (threadsafe_queue.new.push x).try_pop
          = (Outcome.returned (some x), threadsafe_queue.new) ∧
        threadsafe_queue.wait_and_pop_ref wakeups (threadsafe_queue.new.push x) value
          = (Outcome.returned (), threadsafe_queue.new, x) ∧
        threadsafe_queue.wait_and_pop wakeups (threadsafe_queue.new.push x)
          = (Outcome.returned (some x), threadsafe_queue.new)) := by
  constructor
  · intro xs cs value h
    have hd : q.push_all xs = { data_queue := (q.data_queue ++ xs) ++ [] } := by
      have := queue_push_all_data xs q
      cases hs : q.push_all xs
      simp_all
    rw [hd, queue_pop_seq_prefix cs (q.data_queue ++ xs) [] value (by simpa using h)]
    rfl
  · intro x value wakeups
    refine ⟨rfl, rfl, ?_, ?_⟩
    · exact wait_and_pop_ref_nonempty wakeups x [] value
    · exact wait_and_pop_nonempty wakeups x []

/-- C4: `try_pop` always returns (it never leaves the caller suspended). On an
empty queue `try_pop(T&)` returns `false` with queue and out-parameter unchanged
and `try_pop()` returns a null pointer with the queue unchanged; on a non-empty
queue both remove the front element and deliver it, the remaining elements staying
in order; and in every state the two overloads leave the same queue, succeed
together and deliver the same value. -/
theorem threadsafe_queue_try_pop_total {T : Type} (q : threadsafe_queue T) (value : T) :
    ((∃ b, (q.try_pop_ref value).1 = Outcome.returned b) ∧
      (∃ p, (q.try_pop).1 = Outcome.returned p)) ∧
    (q.data_queue = [] →
      q.try_pop_ref value = (Outcome.returned false, q, value) ∧
      q.try_pop = (Outcome.returned none, q)) ∧
    (∀ (front : T) (rest : List T), q.data_queue = front :: rest →
      q.try_pop_ref value = (Outcome.returned true, { data_queue := rest }, front) ∧
      q.try_pop = (Outcome.returned (some front), { data_queue := rest })) ∧
    ((q.try_pop_ref value).2.1 = (q.try_pop).2 ∧
      ((q.try_pop_ref value).1 = Outcome.returned true ↔
        ∃ v, (q.try_pop).1 = Outcome.returned (some v)) ∧
      (∀ v, (q.try_pop).1 = Outcome.returned (some v) → (q.try_pop_ref value).2.2 = v)) := by
  cases q with
  | mk data =>
    cases data with
    | nil => simp [threadsafe_queue.try_pop_ref, threadsafe_queue.try_pop]
    | cons a l => simp [threadsafe_queue.try_pop_ref, threadsafe_queue.try_pop]

/-! ## Theorems: `wait_and_pop` -/

theorem wait_and_pop_ref_blocked {T : Type}
    (wakeups : List (List (OtherOp T))) :
    ∀ (q : threadsafe_queue T) (value : T),
      (∀ k, (after_batches k wakeups q).data_queue = []) →
      threadsafe_queue.wait_and_pop_ref wakeups q value
        = (Outcome.blocked, after_batches wakeups.length wakeups q, value) := by
  induction wakeups with
  | nil =>
    intro q value h
    have h0 : q.data_queue = [] := h 0
    simp [threadsafe_queue.wait_and_pop_ref, h0, after_batches]
  | cons batch ws ih =>
    intro q value h
    have h0 : q.data_queue = [] := h 0
    have hk : ∀ k, (after_batches k ws (run_others batch q)).data_queue = [] :=
      fun k => h (k + 1)
    simp [threadsafe_queue.wait_and_pop_ref, h0, after_batches, ih _ value hk]

theorem wait_and_pop_blocked {T : Type}
    (wakeups : List (List (OtherOp T))) :
    ∀ (q : threadsafe_queue T),
      (∀ k, (after_batches k wakeups q).data_queue = []) →
      threadsafe_queue.wait_and_pop wakeups q
        = (Outcome.blocked, after_batches wakeups.length wakeups q) := by
  induction wakeups with
  | nil =>
    intro q h
    have h0 : q.data_queue = [] := h 0
    simp [threadsafe_queue.wait_and_pop, h0, after_batches]
  | cons batch ws ih =>
    intro q h
    have h0 : q.data_queue = [] := h 0
    have hk : ∀ k, (after_batches k ws (run_others batch q)).data_queue = [] :=
      fun k => h (k + 1)
    simp [threadsafe_queue.wait_and_pop, h0, after_batches, ih _ hk]

theorem wait_and_pop_ref_returned {T : Type}
    (wakeups : List (List (OtherOp T))) :
    ∀ (q q' : threadsafe_queue T) (value v : T),
      threadsafe_queue.wait_and_pop_ref wakeups q value = (Outcome.returned (), q', v) →
      ∃ k, k ≤ wakeups.length ∧
        (after_batches k wakeups q).data_queue = v :: q'.data_queue ∧
        ∀ j, j < k → (after_batches j wakeups q).data_queue = [] := by
  induction wakeups with
  | nil =>
    intro q q' value v h
    cases q with
    | mk data =>
      cases data with
      | nil => simp [threadsafe_queue.wait_and_pop_ref] at h
      | cons a l =>
        simp [threadsafe_queue.wait_and_pop_ref] at h
        refine ⟨0, le_refl _, ?_, fun j hj => absurd hj (Nat.not_lt_zero j)⟩
        obtain ⟨hq, hv⟩ := h
        subst hq hv
        simp [after_batches]
  | cons batch ws ih =>
    intro q q' value v h
    cases q with
    | mk data =>
      cases data with
      | nil =>
        simp only [threadsafe_queue.wait_and_pop_ref] at h
        obtain ⟨k, hk, hfront, hempty⟩ := ih _ q' value v h
        refine ⟨k + 1, by simpa using hk, by simpa [after_batches] using hfront, ?_⟩
        intro j hj
        cases j with
        | zero => simp [after_batches]
        | succ j => simpa [after_batches] using hempty j (by omega)
      | cons a l =>
        simp [threadsafe_queue.wait_and_pop_ref] at h
        refine ⟨0, Nat.zero_le _, ?_, fun j hj => absurd hj (Nat.not_lt_zero j)⟩
        obtain ⟨hq, hv⟩ := h
        subst hq hv
        simp [after_batches]

theorem after_batches_spurious {T : Type} (n k : Nat) (q : threadsafe_queue T) :
    after_batches k (List.replicate n ([] : List (OtherOp T))) q = q := by
  induction n generalizing k with
  | zero => cases k <;> rfl
  | succ n ih =>
    cases k with
    | zero => rfl
    | succ k => simpa [List.replicate_succ, after_batches, run_others] using ih k

theorem wait_and_pop_ref_spurious_then {T : Type} (n : Nat)
    (rest : List (List (OtherOp T))) (value : T) :
    threadsafe_queue.wait_and_pop_ref
        (List.replicate n ([] : List (OtherOp T)) ++ rest) threadsafe_queue.new value
      = threadsafe_queue.wait_and_pop_ref rest threadsafe_queue.new value := by
  induction n with
  | zero => simp
  | succ n ih =>
    simpa [List.replicate_succ, threadsafe_queue.wait_and_pop_ref, threadsafe_queue.new,
      run_others] using ih

theorem wait_and_pop_spurious_then {T : Type} (n : Nat)
    (rest : List (List (OtherOp T))) :
    threadsafe_queue.wait_and_pop
        (List.replicate n ([] : List (OtherOp T)) ++ rest) threadsafe_queue.new
      = threadsafe_queue.wait_and_pop rest threadsafe_queue.new := by
  induction n with
  | zero => simp
  | succ n ih =>
    simpa [List.replicate_succ, threadsafe_queue.wait_and_pop, threadsafe_queue.new,
      run_others] using ih

theorem wait_and_pop_returned {T : Type}
    (wakeups : List (List (OtherOp T))) (q q' : threadsafe_queue T) (p : shared_ptr T)
    (h : threadsafe_queue.wait_and_pop wakeups q = (Outcome.returned p, q')) :
    ∃ v k, p = some v ∧ k ≤ wakeups.length ∧
      (after_batches k wakeups q).data_queue = v :: q'.data_queue ∧
      ∀ j, j < k → (after_batches j wakeups q).data_queue = [] := by
  induction wakeups generalizing q with
  | nil =>
    cases q with
    | mk data =>
      cases data with
      | nil => simp [threadsafe_queue.wait_and_pop] at h
      | cons a l =>
        simp [threadsafe_queue.wait_and_pop] at h
        obtain ⟨hp, hq⟩ := h
        subst hp hq
        exact ⟨a, 0, rfl, le_refl _, by simp [after_batches],
          fun j hj => absurd hj (Nat.not_lt_zero j)⟩
  | cons batch ws ih =>
    cases q with
    | mk data =>
      cases data with
      | nil =>
        simp only [threadsafe_queue.wait_and_pop] at h
        obtain ⟨v, k, hp, hk, hfront, hempty⟩ := ih _ h
        refine ⟨v, k + 1, hp, by simpa using hk, by simpa [after_batches] using hfront, ?_⟩
        intro j hj
        cases j with
        | zero => simp [after_batches]
        | succ j => simpa [after_batches] using hempty j (by omega)
      | cons a l =>
        simp [threadsafe_queue.wait_and_pop] at h
        obtain ⟨hp, hq⟩ := h
        subst hp hq
        exact ⟨a, 0, rfl, Nat.zero_le _, by simp [after_batches],
          fun j hj => absurd hj (Nat.not_lt_zero j)⟩

theorem wait_and_pop_ref_delivers {T : Type} (wakeups : List (List (OtherOp T))) :
    ∀ (q : threadsafe_queue T) (value : T) (k : Nat) (v : T) (rest : List T),
      (∀ j, j < k → (after_batches j wakeups q).data_queue = []) →
      (after_batches k wakeups q).data_queue = v :: rest →
      threadsafe_queue.wait_and_pop_ref wakeups q value
        = (Outcome.returned (), { data_queue := rest }, v) := by
  induction wakeups with
  | nil =>
    intro q value k v rest _ hk
    have hq : q.data_queue = v :: rest := by
      cases k with
      | zero => exact hk
      | succ k => exact hk
    cases q with
    | mk data =>
      simp only at hq
      subst hq
      rfl
  | cons batch ws ih =>
    intro q value k v rest hempty hk
    cases k with
    | zero =>
      have hq : q.data_queue = v :: rest := hk
      cases q with
      | mk data =>
        simp only at hq
        subst hq
        rfl
    | succ k =>
      have h0 : q.data_queue = [] := hempty 0 (Nat.succ_pos k)
      have hstep : threadsafe_queue.wait_and_pop_ref (batch :: ws) q value
          = threadsafe_queue.wait_and_pop_ref ws (run_others batch q) value := by
        cases q with
        | mk data =>
          simp only at h0
          subst h0
          rfl
      rw [hstep]
      exact ih (run_others batch q) value k v rest
        (fun j hj => hempty (j + 1) (Nat.succ_lt_succ hj)) hk

theorem wait_and_pop_delivers {T : Type} (wakeups : List (List (OtherOp T))) :
    ∀ (q : threadsafe_queue T) (k : Nat) (v : T) (rest : List T),
      (∀ j, j < k → (after_batches j wakeups q).data_queue = []) →
      (after_batches k wakeups q).data_queue = v :: rest →
      threadsafe_queue.wait_and_pop wakeups q
        = (Outcome.returned (some v), { data_queue := rest }) := by
  induction wakeups with
  | nil =>
    intro q k v rest _ hk
    have hq : q.data_queue = v :: rest := by
      cases k with
      | zero => exact hk
      | succ k => exact hk
    cases q with
    | mk data =>
      simp only at hq
      subst hq
      rfl
  | cons batch ws ih =>
    intro q k v rest hempty hk
    cases k with
    | zero =>
      have hq : q.data_queue = v :: rest := hk
      cases q with
      | mk data =>
        simp only at hq
        subst hq
        rfl
    | succ k =>
      have h0 : q.data_queue = [] := hempty 0 (Nat.succ_pos k)
      have hstep : threadsafe_queue.wait_and_pop (batch :: ws) q
          = threadsafe_queue.wait_and_pop ws (run_others batch q) := by
        cases q with
        | mk data =>
          simp only at h0
          subst h0
          rfl
      rw [hstep]
      exact ih (run_others batch q) k v rest
        (fun j hj => hempty (j + 1) (Nat.succ_lt_succ hj)) hk

theorem first_nonempty_test {T : Type} (wakeups : List (List (OtherOp T)))
    (q : threadsafe_queue T) (h : ∃ k, (after_batches k wakeups q).data_queue ≠ []) :
    ∃ k v rest, (∀ j, j < k → (after_batches j wakeups q).data_queue = []) ∧
      (after_batches k wakeups q).data_queue = v :: rest := by
  classical
  refine ⟨Nat.find h, ?_⟩
  have hk := Nat.find_spec h
  cases hd : (after_batches (Nat.find h) wakeups q).data_queue with
  | nil => exact absurd hd hk
  | cons v rest =>
    refine ⟨v, rest, ?_, rfl⟩
    intro j hj
    by_contra hne
    exact Nat.find_min h hj hne

/-- C9: `wait_and_pop` (both overloads) completes only in a state where the queue
is non-empty, and does complete in the first such state it tests. As long as every
test of the predicate finds the queue empty the caller is still suspended, and it
has changed neither the queue nor its out-parameter, however many wakeups occurred
(spurious ones on a queue nobody touched included). When it returns, the queue it
found at its last test was non-empty, every earlier test found it empty, and it
removed exactly the front element of that queue and delivered it. Conversely, if
the test after `k` wakeups is the first to find the queue non-empty, the call
returns there, delivering the front element of that queue and leaving the rest;
so the call returns exactly when some test finds the queue non-empty, and it never
throws. On a non-empty queue it returns at once with the value and the queue
`try_pop` gives in that state. A waiter on an empty queue that sees any number of
spurious wakeups and then a `push(x)` delivers `x`. -/
theorem threadsafe_queue_wait_and_pop_waits {T : Type} (q : threadsafe_queue T) (value : T)
    (wakeups : List (List (OtherOp T))) :
    ((∀ k, (after_batches k wakeups q).data_queue = []) →
      threadsafe_queue.wait_and_pop_ref wakeups q value
        = (Outcome.blocked, after_batches wakeups.length wakeups q, value) ∧
      threadsafe_queue.wait_and_pop wakeups q
        = (Outcome.blocked, after_batches wakeups.length wakeups q)) ∧
    (∀ n : Nat,
      threadsafe_queue.wait_and_pop_ref (List.replicate n []) threadsafe_queue.new value
        = (Outcome.blocked, threadsafe_queue.new, value) ∧
      threadsafe_queue.wait_and_pop (List.replicate n ([] : List (OtherOp T)))
          threadsafe_queue.new
        = (Outcome.blocked, threadsafe_queue.new)) ∧
    (∀ (q' : threadsafe_queue T) (v : T),
      threadsafe_queue.wait_and_pop_ref wakeups q value = (Outcome.returned (), q', v) →
      ∃ k, k ≤ wakeups.length ∧
        (after_batches k wakeups q).data_queue = v :: q'.data_queue ∧
        ∀ j, j < k → (after_batches j wakeups q).data_queue = []) ∧
    (∀ (q' : threadsafe_queue T) (p : shared_ptr T),
      threadsafe_queue.wait_and_pop wakeups q = (Outcome.returned p, q') →
      ∃ v k, p = some v ∧ k ≤ wakeups.length ∧
        (after_batches k wakeups q).data_queue = v :: q'.data_queue ∧
        ∀ j, j < k → (after_batches j wakeups q).data_queue = []) ∧
    (∀ (front : T) (rest : List T), q.data_queue = front :: rest →
      threadsafe_queue.wait_and_pop_ref wakeups q value
        = (Outcome.returned (), { data_queue := rest }, front) ∧
      threadsafe_queue.wait_and_pop wakeups q
        = (Outcome.returned (some front), { data_queue := rest }) ∧
      (threadsafe_queue.wait_and_pop_ref wakeups q value).2 = (q.try_pop_ref value).2 ∧
      threadsafe_queue.wait_and_pop wakeups q = q.try_pop) ∧
    (∀ (n : Nat) (x : T) (more : List (List (OtherOp T))),
      threadsafe_queue.wait_and_pop_ref
          (List.replicate n [] ++ [OtherOp.push x] :: more) threadsafe_queue.new value
        = (Outcome.returned (), threadsafe_queue.new, x) ∧
      threadsafe_queue.wait_and_pop
          (List.replicate n [] ++ [OtherOp.push x] :: more) threadsafe_queue.new
        = (Outcome.returned (some x), threadsafe_queue.new)) ∧
    (∀ (k : Nat) (v : T) (rest : List T),
      (∀ j, j < k → (after_batches j wakeups q).data_queue = []) →
      (after_batches k wakeups q).data_queue = v :: rest →
      threadsafe_queue.wait_and_pop_ref wakeups q value
        = (Outcome.returned (), { data_queue := rest }, v) ∧
      threadsafe_queue.wait_and_pop wakeups q
        = (Outcome.returned (some v), { data_queue := rest })) ∧
    (((∃ k, (after_batches k wakeups q).data_queue ≠ []) ↔
        ∃ q' v, threadsafe_queue.wait_and_pop_ref wakeups q value
          = (Outcome.returned (), q', v)) ∧
      ((∃ k, (after_batches k wakeups q).data_queue ≠ []) ↔
        ∃ q' v, threadsafe_queue.wait_and_pop wakeups q
          = (Outcome.returned (some v), q'))) ∧
    ((∀ e, (threadsafe_queue.wait_and_pop_ref wakeups q value).1 ≠ Outcome.threw e) ∧
      (∀ e, (threadsafe_queue.wait_and_pop wakeups q).1 ≠ Outcome.threw e)) := by
  refine ⟨?_, ?_, ?_, ?_, ?_, ?_, ?_, ?_, ?_⟩
  · intro h
    exact ⟨wait_and_pop_ref_blocked wakeups q value h,
      wait_and_pop_blocked wakeups q h⟩
  · intro n
    have hb : ∀ k, (after_batches k (List.replicate n ([] : List (OtherOp T)))
        (threadsafe_queue.new (T := T))).data_queue = [] := by
      intro k
      rw [after_batches_spurious]
      rfl
    have h1 := wait_and_pop_ref_blocked _ _ value hb
    have h2 := wait_and_pop_blocked _ _ hb
    rw [after_batches_spurious] at h1 h2
    exact ⟨h1, h2⟩
  · intro q' v h
    exact wait_and_pop_ref_returned wakeups q q' value v h
  · intro q' p h
    exact wait_and_pop_returned wakeups q q' p h
  · intro front rest h
    cases q with
    | mk data =>
      simp only at h
      subst h
      refine ⟨wait_and_pop_ref_nonempty wakeups front rest value,
        wait_and_pop_nonempty wakeups front rest, ?_, ?_⟩
      · rw [wait_and_pop_ref_nonempty]
        rfl
      · rw [wait_and_pop_nonempty]
        rfl
  · intro n x more
    rw [wait_and_pop_ref_spurious_then,
      wait_and_pop_spurious_then]
    constructor
    · exact wait_and_pop_ref_nonempty more x [] value
    · exact wait_and_pop_nonempty more x []
  · intro k v rest hempty hk
    exact ⟨wait_and_pop_ref_delivers wakeups q value k v rest hempty hk,
      wait_and_pop_delivers wakeups q k v rest hempty hk⟩
  · constructor
    · constructor
      · intro h
        obtain ⟨k, v, rest, hempty, hk⟩ := first_nonempty_test wakeups q h
        exact ⟨{ data_queue := rest }, v,
          wait_and_pop_ref_delivers wakeups q value k v rest hempty hk⟩
      · rintro ⟨q', v, h⟩
        obtain ⟨k, _, hk, _⟩ := wait_and_pop_ref_returned wakeups q q' value v h
        exact ⟨k, by rw [hk]; simp⟩
    · constructor
      · intro h
        obtain ⟨k, v, rest, hempty, hk⟩ := first_nonempty_test wakeups q h
        exact ⟨{ data_queue := rest }, v, wait_and_pop_delivers wakeups q k v rest hempty hk⟩
      · rintro ⟨q', v, h⟩
        obtain ⟨v', k, _, _, hk, _⟩ := wait_and_pop_returned wakeups q q' (some v) h
        exact ⟨k, by rw [hk]; simp⟩
  · by_cases h : ∃ k, (after_batches k wakeups q).data_queue ≠ []
    · obtain ⟨k, v, rest, hempty, hk⟩ := first_nonempty_test wakeups q h
      rw [wait_and_pop_ref_delivers wakeups q value k v rest hempty hk,
        wait_and_pop_delivers wakeups q k v rest hempty hk]
      exact ⟨fun e he => (by cases he), fun e he => (by cases he)⟩
    · have hall : ∀ k, (after_batches k wakeups q).data_queue = [] := by
        intro k
        by_contra hne
        exact h ⟨k, hne⟩
      rw [wait_and_pop_ref_blocked wakeups q value hall, wait_and_pop_blocked wakeups q hall]
      exact ⟨fun e he => (by cases he), fun e he => (by cases he)⟩

/-- C9 at two histories from the empty queue: another thread pushes 1 and 2 during
the first suspension; and another thread's pop finds nothing during the first
suspension, then a push of 5 comes during the second. -/
theorem threadsafe_queue_wait_and_pop_waits_witness :
    threadsafe_queue.wait_and_pop_ref [[OtherOp.push 1, OtherOp.push 2]]
        (threadsafe_queue.new (T := Nat)) 0
      = (Outcome.returned (), { data_queue := [2] }, 1) ∧
    threadsafe_queue.wait_and_pop [[OtherOp.pop], [OtherOp.push 5]]
        (threadsafe_queue.new (T := Nat))
      = (Outcome.returned (some 5), { data_queue := [] }) :=
  ⟨((threadsafe_queue_wait_and_pop_waits (threadsafe_queue.new (T := Nat)) 0
        [[OtherOp.push 1, OtherOp.push 2]]).2.2.2.2.2.2.1 1 1 [2]
      (by decide) (by decide)).1,
    ((threadsafe_queue_wait_and_pop_waits (threadsafe_queue.new (T := Nat)) 0
        [[OtherOp.pop], [OtherOp.push 5]]).2.2.2.2.2.2.1 2 5 []
      (by decide) (by decide)).2⟩


/-! ## Theorems: interleavings on one queue -/

theorem interleave_conservation {T : Type} (es : List (Event T)) :
    ∀ (q q' : threadsafe_queue T) (delivered : List T),
      interleave es q = some (delivered, q') →
      q.data_queue ++ pushed es = delivered ++ q'.data_queue := by
  induction es with
  | nil =>
    intro q q' delivered h
    simp [interleave] at h
    obtain ⟨hd, hq⟩ := h
    subst hd hq
    simp [pushed]
  | cons e es ih =>
    intro q q' delivered h
    cases q with
    | mk data =>
      cases e with
      | push x =>
        simp only [interleave, Event.step] at h
        have := ih _ _ _ h
        simpa [pushed, threadsafe_queue.push] using this
      | try_pop_ref value =>
        cases data with
        | nil =>
          simp only [interleave, Event.step, PopCall.run, threadsafe_queue.try_pop_ref,
            Option.map] at h
          simpa [pushed] using ih _ _ _ h
        | cons a l =>
          simp only [interleave, Event.step, PopCall.run, threadsafe_queue.try_pop_ref,
            Option.map] at h
          cases hr : interleave es { data_queue := l } with
          | none => simp [hr] at h
          | some r =>
            simp [hr] at h
            obtain ⟨hd, hq⟩ := h
            subst hd hq
            simpa [pushed] using ih _ _ _ hr
      | try_pop =>
        cases data with
        | nil =>
          simp only [interleave, Event.step, threadsafe_queue.try_pop] at h
          simpa [pushed] using ih _ _ _ h
        | cons a l =>
          simp only [interleave, Event.step, threadsafe_queue.try_pop] at h
          cases hr : interleave es { data_queue := l } with
          | none => simp [hr] at h
          | some r =>
            simp [hr] at h
            obtain ⟨hd, hq⟩ := h
            subst hd hq
            simpa [pushed] using ih _ _ _ hr
      | wait_and_pop_ref value =>
        cases data with
        | nil =>
          simp [interleave, Event.step, PopCall.run, threadsafe_queue.wait_and_pop_ref] at h
        | cons a l =>
          simp only [interleave, Event.step, PopCall.run, threadsafe_queue.wait_and_pop_ref,
            Option.map] at h
          cases hr : interleave es { data_queue := l } with
          | none => simp [hr] at h
          | some r =>
            simp [hr] at h
            obtain ⟨hd, hq⟩ := h
            subst hd hq
            simpa [pushed] using ih _ _ _ hr
      | wait_and_pop =>
        cases data with
        | nil => simp [interleave, Event.step, threadsafe_queue.wait_and_pop] at h
        | cons a l =>
          simp only [interleave, Event.step, threadsafe_queue.wait_and_pop] at h
          cases hr : interleave es { data_queue := l } with
          | none => simp [hr] at h
          | some r =>
            simp [hr] at h
            obtain ⟨hd, hq⟩ := h
            subst hd hq
            simpa [pushed] using ih _ _ _ hr

theorem interleave_waits_deliver {T : Type} (es : List (Event T)) :
    ∀ (q q' : threadsafe_queue T) (delivered : List T),
      (∀ e ∈ es, e.is_try_pop = false) →
      interleave es q = some (delivered, q') →
      delivered.length = pops_completed es := by
  induction es with
  | nil =>
    intro q q' delivered _ h
    simp [interleave] at h
    simp [← h.1, pops_completed]
  | cons e es ih =>
    intro q q' delivered hw h
    have hw' : ∀ e ∈ es, e.is_try_pop = false := fun e he => hw e (List.mem_cons_of_mem _ he)
    have he : e.is_try_pop = false := hw e (List.mem_cons_self _ _)
    cases q with
    | mk data =>
      cases e with
      | push x =>
        simp only [interleave, Event.step] at h
        simpa [pops_completed, Event.is_push] using ih _ _ _ hw' h
      | try_pop_ref value => simp [Event.is_try_pop] at he
      | try_pop => simp [Event.is_try_pop] at he
      | wait_and_pop_ref value =>
        cases data with
        | nil =>
          simp [interleave, Event.step, PopCall.run, threadsafe_queue.wait_and_pop_ref] at h
        | cons a l =>
          simp only [interleave, Event.step, PopCall.run, threadsafe_queue.wait_and_pop_ref,
            Option.map] at h
          cases hr : interleave es { data_queue := l } with
          | none => simp [hr] at h
          | some r =>
            simp [hr] at h
            obtain ⟨hd, hq⟩ := h
            subst hd hq
            have := ih _ _ _ hw' hr
            simpa [pops_completed, Event.is_push] using this
      | wait_and_pop =>
        cases data with
        | nil => simp [interleave, Event.step, threadsafe_queue.wait_and_pop] at h
        | cons a l =>
          simp only [interleave, Event.step, threadsafe_queue.wait_and_pop] at h
          cases hr : interleave es { data_queue := l } with
          | none => simp [hr] at h
          | some r =>
            simp [hr] at h
            obtain ⟨hd, hq⟩ := h
            subst hd hq
            have := ih _ _ _ hw' hr
            simpa [pops_completed, Event.is_push] using this

theorem interleave_try_pops_run {T : Type} (es : List (Event T)) :
    ∀ (q : threadsafe_queue T),
      (∀ e ∈ es, e.is_push = true ∨ e.is_try_pop = true) →
      (interleave es q).isSome = true := by
  induction es with
  | nil => intro q _; rfl
  | cons e es ih =>
    intro q hw
    have hw' : ∀ e ∈ es, e.is_push = true ∨ e.is_try_pop = true :=
      fun e he => hw e (List.mem_cons_of_mem _ he)
    have he := hw e (List.mem_cons_self _ _)
    cases q with
    | mk data =>
      cases e with
      | push x => simpa [interleave, Event.step] using ih _ hw'
      | try_pop_ref value =>
        cases data with
        | nil =>
          simpa [interleave, Event.step, PopCall.run, threadsafe_queue.try_pop_ref]
            using ih _ hw'
        | cons a l =>
          have := ih { data_queue := l } hw'
          simp only [interleave, Event.step, PopCall.run, threadsafe_queue.try_pop_ref,
            Option.map]
          cases hr : interleave es { data_queue := l } with
          | none => simp [hr] at this
          | some r => simp
      | try_pop =>
        cases data with
        | nil => simpa [interleave, Event.step, threadsafe_queue.try_pop] using ih _ hw'
        | cons a l =>
          have := ih { data_queue := l } hw'
          simp only [interleave, Event.step, threadsafe_queue.try_pop]
          cases hr : interleave es { data_queue := l } with
          | none => simp [hr] at this
          | some r => simp
      | wait_and_pop_ref value => simp [Event.is_push, Event.is_try_pop] at he
      | wait_and_pop => simp [Event.is_push, Event.is_try_pop] at he

/-- C8 as stated fails: the interleaving "`try_pop()` on the empty queue, then
`push(7)`" is an execution in which one pop and one push have completed, yet the
pop delivered nothing: the popped values are not the pushed ones. -/
theorem queue_pop_count_counterexample :
    interleave [Event.try_pop, Event.push 7] (threadsafe_queue.new (T := Nat))
        = some ([], { data_queue := [7] }) ∧
      pops_completed [Event.try_pop, Event.push (7 : Nat)]
        = (pushed [Event.try_pop, Event.push (7 : Nat)]).length ∧
      Multiset.ofList ([] : List Nat)
        ≠ Multiset.ofList (pushed [Event.try_pop, Event.push (7 : Nat)]) := by
  refine ⟨rfl, rfl, ?_⟩
  simp [pushed]

/-- C8, amended: for every interleaving of pushes and completed pops (of the four
kinds) on a queue that starts empty, the values delivered by the pops, in
completion order, followed by the remaining content of the queue are the values
pushed, in push order. Hence once as many values have been delivered as were
pushed, the delivered values are exactly the pushed ones (as lists, so as
multisets) and the queue is empty; when every pop is a `wait_and_pop`, that is the
moment as many pops have completed as pushes. An interleaving of pushes and
`try_pop`s is always an execution. -/
theorem queue_no_loss_no_duplication {T : Type} (es : List (Event T)) :
    (∀ (delivered : List T) (q' : threadsafe_queue T),
      interleave es threadsafe_queue.new = some (delivered, q') →
      delivered ++ q'.data_queue = pushed es ∧
      (delivered.length = (pushed es).length →
        delivered = pushed es ∧ Multiset.ofList delivered = Multiset.ofList (pushed es) ∧
        q' = threadsafe_queue.new) ∧
      ((∀ e ∈ es, e.is_try_pop = false) → pops_completed es = (pushed es).length →
        delivered = pushed es ∧ Multiset.ofList delivered = Multiset.ofList (pushed es) ∧
        q' = threadsafe_queue.new)) ∧
    ((∀ e ∈ es, e.is_push = true ∨ e.is_try_pop = true) →
      (interleave es (threadsafe_queue.new (T := T))).isSome = true) := by
  refine ⟨?_, interleave_try_pops_run es _⟩
  intro delivered q' h
  have hc : delivered ++ q'.data_queue = pushed es := by
    have := interleave_conservation es _ _ _ h
    simpa [threadsafe_queue.new] using this.symm
  have key : delivered.length = (pushed es).length →
      delivered = pushed es ∧ Multiset.ofList delivered = Multiset.ofList (pushed es) ∧
        q' = threadsafe_queue.new := by
    intro hl
    have hlen : (delivered ++ q'.data_queue).length = (pushed es).length := by rw [hc]
    have hq : q'.data_queue = [] := by
      apply List.eq_nil_of_length_eq_zero
      simp only [List.length_append] at hlen
      omega
    have hd : delivered = pushed es := by simpa [hq] using hc
    refine ⟨hd, by rw [hd], ?_⟩
    cases q' with
    | mk data => simp_all [threadsafe_queue.new]
  refine ⟨hc, key, ?_⟩
  intro hw hp
  exact key ((interleave_waits_deliver es _ _ _ hw h).trans hp)

/-- C8 at a concrete interleaving: two producers and two consumers. -/
theorem queue_no_loss_no_duplication_witness :
    interleave
        [Event.push 1, Event.try_pop, Event.push 2, Event.push 3, Event.wait_and_pop_ref 0,
          Event.try_pop_ref 0, Event.try_pop]
        (threadsafe_queue.new (T := Nat))
      = some ([1, 2, 3], threadsafe_queue.new) ∧
    [1, 2, 3] ++ (threadsafe_queue.new (T := Nat)).data_queue
      = pushed [Event.push 1, Event.try_pop, Event.push 2, Event.push 3,
          Event.wait_and_pop_ref 0, Event.try_pop_ref 0, Event.try_pop] :=
  ⟨by decide,
    ((queue_no_loss_no_duplication
      [Event.push 1, Event.try_pop, Event.push 2, Event.push 3, Event.wait_and_pop_ref 0,
        Event.try_pop_ref 0, Event.try_pop]).1 [1, 2, 3] threadsafe_queue.new
      (by decide)).1⟩

/-! ## Theorems: `hierarchical_mutex`, one call -/

theorem World.put_self (w : World) (tid self : Nat) :
    w.put tid self (w.mutexes self, w.this_thread_hierarchy_value tid) = w := by
  cases w
  simp [World.put]

theorem World.lock_threw (w : World) (tid self : Nat)
    (h : w.this_thread_hierarchy_value tid ≤ w.value self) :
    w.lock tid self = (Outcome.threw Exn.logic_error, w) := by
  have h' : w.this_thread_hierarchy_value tid ≤ (w.mutexes self).hierarchy_value := h
  simp [World.lock, hierarchical_mutex.lock,
    hierarchical_mutex.check_for_hierarchy_violation, h', World.put_self]

theorem World.lock_blocked (w : World) (tid self o : Nat)
    (h : w.value self < w.this_thread_hierarchy_value tid)
    (ho : (w.mutexes self).internal_mutex.owner = some o) :
    w.lock tid self = (Outcome.blocked, w) := by
  have h' : ¬ w.this_thread_hierarchy_value tid ≤ (w.mutexes self).hierarchy_value :=
    Nat.not_le.mpr h
  simp [World.lock, hierarchical_mutex.lock,
    hierarchical_mutex.check_for_hierarchy_violation, h', std_mutex.lock, ho, World.put_self]

theorem World.lock_returned (w : World) (tid self : Nat)
    (h : w.value self < w.this_thread_hierarchy_value tid)
    (ho : (w.mutexes self).internal_mutex.owner = none) :
    w.lock tid self = (Outcome.returned (),
      { this_thread_hierarchy_value :=
          Function.update w.this_thread_hierarchy_value tid (w.value self),
        mutexes := Function.update w.mutexes self
          { hierarchy_value := w.value self,
            previous_hierarchy_value := w.this_thread_hierarchy_value tid,
            internal_mutex := { owner := some tid } } }) := by
  have h' : ¬ w.this_thread_hierarchy_value tid ≤ (w.mutexes self).hierarchy_value :=
    Nat.not_le.mpr h
  simp [World.lock, hierarchical_mutex.lock,
    hierarchical_mutex.check_for_hierarchy_violation, h', std_mutex.lock, ho, World.put,
    hierarchical_mutex.update_hierarchy_value, World.value]

theorem World.try_lock_threw (w : World) (tid self : Nat)
    (h : w.this_thread_hierarchy_value tid ≤ w.value self) :
    w.try_lock tid self = (Outcome.threw Exn.logic_error, w) := by
  have h' : w.this_thread_hierarchy_value tid ≤ (w.mutexes self).hierarchy_value := h
  simp [World.try_lock, hierarchical_mutex.try_lock,
    hierarchical_mutex.check_for_hierarchy_violation, h', World.put_self]

theorem World.try_lock_false (w : World) (tid self o : Nat)
    (h : w.value self < w.this_thread_hierarchy_value tid)
    (ho : (w.mutexes self).internal_mutex.owner = some o) :
    w.try_lock tid self = (Outcome.returned false, w) := by
  have h' : ¬ w.this_thread_hierarchy_value tid ≤ (w.mutexes self).hierarchy_value :=
    Nat.not_le.mpr h
  simp [World.try_lock, hierarchical_mutex.try_lock,
    hierarchical_mutex.check_for_hierarchy_violation, h', std_mutex.try_lock, ho]
  exact World.put_self w tid self

theorem World.try_lock_true (w : World) (tid self : Nat)
    (h : w.value self < w.this_thread_hierarchy_value tid)
    (ho : (w.mutexes self).internal_mutex.owner = none) :
    w.try_lock tid self = (Outcome.returned true,
      { this_thread_hierarchy_value :=
          Function.update w.this_thread_hierarchy_value tid (w.value self),
        mutexes := Function.update w.mutexes self
          { hierarchy_value := w.value self,
            previous_hierarchy_value := w.this_thread_hierarchy_value tid,
            internal_mutex := { owner := some tid } } }) := by
  have h' : ¬ w.this_thread_hierarchy_value tid ≤ (w.mutexes self).hierarchy_value :=
    Nat.not_le.mpr h
  simp [World.try_lock, hierarchical_mutex.try_lock,
    hierarchical_mutex.check_for_hierarchy_violation, h', std_mutex.try_lock, ho, World.put,
    hierarchical_mutex.update_hierarchy_value, World.value]

theorem World.unlock_threw (w : World) (tid self : Nat)
    (h : w.this_thread_hierarchy_value tid ≠ w.value self) :
    w.unlock tid self = (Outcome.threw Exn.logic_error, w) := by
  have h' : w.this_thread_hierarchy_value tid ≠ (w.mutexes self).hierarchy_value := h
  simp [World.unlock, hierarchical_mutex.unlock, h', World.put_self]

theorem World.unlock_returned (w : World) (tid self : Nat)
    (h : w.this_thread_hierarchy_value tid = w.value self) :
    w.unlock tid self = (Outcome.returned (),
      { this_thread_hierarchy_value :=
          Function.update w.this_thread_hierarchy_value tid
            (w.mutexes self).previous_hierarchy_value,
        mutexes := Function.update w.mutexes self
          { hierarchy_value := w.value self,
            previous_hierarchy_value := (w.mutexes self).previous_hierarchy_value,
            internal_mutex := { owner := none } } }) := by
  have h' : w.this_thread_hierarchy_value tid = (w.mutexes self).hierarchy_value := h
  simp [World.unlock, hierarchical_mutex.unlock, h', World.put, std_mutex.unlock,
    World.value]

theorem World.lock_threw_iff (w : World) (tid self : Nat) :
    (w.lock tid self).1 = Outcome.threw Exn.logic_error ↔
      w.this_thread_hierarchy_value tid ≤ w.value self := by
  constructor
  · intro h
    by_contra hc
    have hlt : w.value self < w.this_thread_hierarchy_value tid := Nat.not_le.mp hc
    cases ho : (w.mutexes self).internal_mutex.owner with
    | none => rw [World.lock_returned w tid self hlt ho] at h; simp at h
    | some o => rw [World.lock_blocked w tid self o hlt ho] at h; simp at h
  · intro h
    rw [World.lock_threw w tid self h]

theorem World.try_lock_threw_iff (w : World) (tid self : Nat) :
    (w.try_lock tid self).1 = Outcome.threw Exn.logic_error ↔
      w.this_thread_hierarchy_value tid ≤ w.value self := by
  constructor
  · intro h
    by_contra hc
    have hlt : w.value self < w.this_thread_hierarchy_value tid := Nat.not_le.mp hc
    cases ho : (w.mutexes self).internal_mutex.owner with
    | none => rw [World.try_lock_true w tid self hlt ho] at h; simp at h
    | some o => rw [World.try_lock_false w tid self o hlt ho] at h; simp at h
  · intro h
    rw [World.try_lock_threw w tid self h]

/-- C5: `m.lock()` called by thread `t` throws `std::logic_error` exactly when
`t`'s `this_thread_hierarchy_value` is less than or equal to `m`'s
`hierarchy_value`; whether it throws is the same in any two worlds that agree on
`t`'s level and `m`'s hierarchy value, and the outcome of the call does not change
when the level of another thread is changed; when it throws the whole world (the
internal mutex, `t`'s level, the saved previous level) is as before. In listing
3.7, a thread holding `low_level_mutex(5000)` or `other_mutex(6000)` that locks
`high_level_mutex(10000)` gets the exception. -/
theorem hierarchical_mutex_lock_violation (w : World) (tid self : Nat) :
    ((w.lock tid self).1 = Outcome.threw Exn.logic_error ↔
        w.this_thread_hierarchy_value tid ≤ w.value self) ∧
    (∀ w' : World,
        w'.this_thread_hierarchy_value tid = w.this_thread_hierarchy_value tid →
        w'.value self = w.value self →
        ((w'.lock tid self).1 = Outcome.threw Exn.logic_error ↔
          (w.lock tid self).1 = Outcome.threw Exn.logic_error)) ∧
    (∀ other level : Nat, other ≠ tid →
        (World.lock
            { this_thread_hierarchy_value :=
                Function.update w.this_thread_hierarchy_value other level,
              mutexes := w.mutexes } tid self).1
          = (w.lock tid self).1) ∧
    ((w.lock tid self).1 = Outcome.threw Exn.logic_error → (w.lock tid self).2 = w) ∧
    (((listing_3_7.lock 0 1).2.lock 0 0).1 = Outcome.threw Exn.logic_error ∧
      ((listing_3_7.lock 0 2).2.lock 0 0).1 = Outcome.threw Exn.logic_error) := by
  refine ⟨World.lock_threw_iff w tid self, ?_, ?_, ?_, ?_⟩
  · intro w' hl hv
    rw [World.lock_threw_iff, World.lock_threw_iff, hl, hv]
  · intro other level hne
    have hl : Function.update w.this_thread_hierarchy_value other level tid
        = w.this_thread_hierarchy_value tid := Function.update_noteq (Ne.symm hne) _ _
    simp only [World.lock, hl]
  · intro h
    rw [World.lock_threw w tid self ((World.lock_threw_iff w tid self).mp h)]
  · constructor <;> decide

/-- C10: `try_lock()` throws `std::logic_error` exactly when `lock()` does (the
caller's level is less than or equal to the hierarchy value), and then the world,
internal mutex included, is as before. When the check passes and the internal
mutex is owned, it returns `false` and the world (the caller's level and the saved
previous level in particular) is as before. When the check passes and the internal
mutex is free, it returns `true`, `lock()` returns too, and both leave the same
world: the caller's level is the hierarchy value, the saved previous level is the
caller's former level and the caller owns the internal mutex. -/
theorem hierarchical_mutex_try_lock_like_lock (w : World) (tid self : Nat) :
    (((w.try_lock tid self).1 = Outcome.threw Exn.logic_error ↔
        (w.lock tid self).1 = Outcome.threw Exn.logic_error) ∧
      ((w.try_lock tid self).1 = Outcome.threw Exn.logic_error ↔
        w.this_thread_hierarchy_value tid ≤ w.value self) ∧
      ((w.try_lock tid self).1 = Outcome.threw Exn.logic_error →
        (w.try_lock tid self).2 = w)) ∧
    (w.value self < w.this_thread_hierarchy_value tid →
      (w.mutexes self).internal_mutex.owner ≠ none →
      w.try_lock tid self = (Outcome.returned false, w)) ∧
    (w.value self < w.this_thread_hierarchy_value tid →
      (w.mutexes self).internal_mutex.owner = none →
      (w.try_lock tid self).1 = Outcome.returned true ∧
      (w.lock tid self).1 = Outcome.returned () ∧
      (w.try_lock tid self).2 = (w.lock tid self).2 ∧
      (w.try_lock tid self).2.this_thread_hierarchy_value tid = w.value self ∧
      ((w.try_lock tid self).2.mutexes self).previous_hierarchy_value
        = w.this_thread_hierarchy_value tid ∧
      ((w.try_lock tid self).2.mutexes self).internal_mutex.owner = some tid) := by
  refine ⟨⟨?_, World.try_lock_threw_iff w tid self, ?_⟩, ?_, ?_⟩
  · rw [World.try_lock_threw_iff, World.lock_threw_iff]
  · intro h
    rw [World.try_lock_threw w tid self ((World.try_lock_threw_iff w tid self).mp h)]
  · intro h ho
    cases hown : (w.mutexes self).internal_mutex.owner with
    | none => exact absurd hown ho
    | some o => exact World.try_lock_false w tid self o h hown
  · intro h ho
    rw [World.try_lock_true w tid self h ho, World.lock_returned w tid self h ho]
    simp

/-- C10 at listing 3.7: a thread holding nothing calls `try_lock()` on the free
`high_level_mutex`, and calls it on `low_level_mutex` while thread 1 owns it. -/
theorem hierarchical_mutex_try_lock_like_lock_witness :
    ((listing_3_7.try_lock 0 0).1 = Outcome.returned true ∧
      (listing_3_7.try_lock 0 0).2.this_thread_hierarchy_value 0 = 10000) ∧
    ((listing_3_7.lock 1 1).2.try_lock 0 1).1 = Outcome.returned false :=
  ⟨⟨((hierarchical_mutex_try_lock_like_lock listing_3_7 0 0).2.2
        (by decide) (by decide)).1,
      by decide⟩,
    by
      have h := (hierarchical_mutex_try_lock_like_lock (listing_3_7.lock 1 1).2 0 1).2.1
        (by decide) (by decide)
      rw [h]⟩

/-! ## Theorems: `hierarchical_mutex`, runs of one thread -/

theorem chain_congr (w w' : World) (held : List Nat) :
    ∀ level, (∀ m ∈ held, w'.mutexes m = w.mutexes m) →
      (chain w' level held ↔ chain w level held) := by
  induction held with
  | nil => intro level _; simp [chain]
  | cons a rest ih =>
    intro level h
    have ha : w'.mutexes a = w.mutexes a := h a (List.mem_cons_self _ _)
    have hr : ∀ m ∈ rest, w'.mutexes m = w.mutexes m :=
      fun m hm => h m (List.mem_cons_of_mem _ hm)
    simp [chain, World.value, ha, ih _ hr]

theorem chain_le (w : World) (held : List Nat) :
    ∀ level, chain w level held → ∀ m ∈ held, level ≤ w.value m := by
  induction held with
  | nil => intro level _ m hm; simp at hm
  | cons a rest ih =>
    intro level h m hm
    obtain ⟨h1, h2, h3⟩ := h
    rcases List.mem_cons.mp hm with rfl | hm'
    · exact le_of_eq h1
    · have := ih _ h3 m hm'
      omega

theorem chain_head_not_mem (w : World) (a : Nat) (rest : List Nat) (level : Nat)
    (h : chain w level (a :: rest)) : a ∉ rest := by
  intro ha
  obtain ⟨_, h2, h3⟩ := h
  have := chain_le w rest _ h3 a ha
  omega

theorem chain_pairwise (w : World) (held : List Nat) :
    ∀ level, chain w level held → (held.map w.value).Pairwise (· < ·) := by
  induction held with
  | nil => intro level _; simp
  | cons a rest ih =>
    intro level h
    obtain ⟨_, h2, h3⟩ := h
    simp only [List.map_cons, List.pairwise_cons]
    refine ⟨?_, ih _ h3⟩
    intro v hv
    obtain ⟨m, hm, rfl⟩ := List.mem_map.mp hv
    have := chain_le w rest _ h3 m hm
    omega

theorem chain_expected_level (s : ThreadRun) (level : Nat)
    (h : chain s.world level s.held) : level = s.expected_level := by
  cases s with
  | mk w held =>
    cases held with
    | nil => exact h
    | cons a rest => exact h.1

theorem chain_owner_is_head (w : World) (level self a : Nat) (rest : List Nat)
    (h : chain w level (a :: rest)) (hm : self ∈ a :: rest) (hl : level = w.value self) :
    self = a := by
  rcases List.mem_cons.mp hm with rfl | hm'
  · rfl
  · obtain ⟨h1, h2, h3⟩ := h
    have := chain_le w rest _ h3 self hm'
    omega

theorem inv_lock_returned (tid self : Nat) (s : ThreadRun) (h : s.inv tid)
    (hlt : s.world.value self < s.world.this_thread_hierarchy_value tid)
    (ho : (s.world.mutexes self).internal_mutex.owner = none) :
    ThreadRun.inv tid
      { world :=
          { this_thread_hierarchy_value :=
              Function.update s.world.this_thread_hierarchy_value tid (s.world.value self),
            mutexes := Function.update s.world.mutexes self
              { hierarchy_value := s.world.value self,
                previous_hierarchy_value := s.world.this_thread_hierarchy_value tid,
                internal_mutex := { owner := some tid } } },
        held := self :: s.held } := by
  obtain ⟨hc, hown⟩ := h
  have hnot : self ∉ s.held := by
    intro hm
    have := (hown self).mpr hm
    simp [World.owns, ho] at this
  constructor
  · refine ⟨?_, ?_, ?_⟩
    · simp [World.value]
    · simpa [World.value] using hlt
    · simp only [Function.update_same]
      refine (chain_congr s.world _ s.held _ ?_).mpr hc
      intro m hm
      have hne : m ≠ self := fun e => hnot (e ▸ hm)
      simp [Function.update_noteq hne]
  · intro m
    by_cases hm : m = self
    · subst hm
      simp [World.owns]
    · have := hown m
      simp only [World.owns, Function.update_noteq hm, List.mem_cons, hm, false_or]
      simpa [World.owns] using this

theorem inv_unlock_returned (tid self : Nat) (s : ThreadRun) (h : s.inv tid)
    (hl : s.world.this_thread_hierarchy_value tid = s.world.value self)
    (ho : s.world.owns tid self = true) :
    ThreadRun.inv tid
      { world :=
          { this_thread_hierarchy_value :=
              Function.update s.world.this_thread_hierarchy_value tid
                (s.world.mutexes self).previous_hierarchy_value,
            mutexes := Function.update s.world.mutexes self
              { hierarchy_value := s.world.value self,
                previous_hierarchy_value := (s.world.mutexes self).previous_hierarchy_value,
                internal_mutex := { owner := none } } },
        held := s.held.erase self } := by
  obtain ⟨hc, hown⟩ := h
  have hmem : self ∈ s.held := (hown self).mp ho
  cases hh : s.held with
  | nil => rw [hh] at hmem; simp at hmem
  | cons a rest =>
    rw [hh] at hc hmem
    have hsa : self = a := chain_owner_is_head s.world _ self a rest hc hmem hl
    subst hsa
    have hnot : self ∉ rest := chain_head_not_mem s.world self rest _ hc
    obtain ⟨_, _, h3⟩ := hc
    constructor
    · simp only [List.erase_cons_head, Function.update_same]
      refine (chain_congr s.world _ rest _ ?_).mpr h3
      intro m hm
      have hne : m ≠ self := fun e => hnot (e ▸ hm)
      simp [Function.update_noteq hne]
    · intro m
      by_cases hm : m = self
      · subst hm
        simp [World.owns, hnot]
      · have := hown m
        rw [hh] at this
        simp only [World.owns, Function.update_noteq hm, List.erase_cons_head]
        simpa [World.owns, hm] using this

theorem exec_cases (tid : Nat) (s : ThreadRun) (c : Call) :
    (s.exec tid c).2 = s ∨
    ((c = Call.lock c.target ∨ c = Call.try_lock c.target) ∧
      s.world.value c.target < s.world.this_thread_hierarchy_value tid ∧
      (s.world.mutexes c.target).internal_mutex.owner = none ∧
      (s.exec tid c).1 = Outcome.returned true ∧
      (s.exec tid c).2 =
        { world :=
            { this_thread_hierarchy_value :=
                Function.update s.world.this_thread_hierarchy_value tid
                  (s.world.value c.target),
              mutexes := Function.update s.world.mutexes c.target
                { hierarchy_value := s.world.value c.target,
                  previous_hierarchy_value := s.world.this_thread_hierarchy_value tid,
                  internal_mutex := { owner := some tid } } },
          held := c.target :: s.held }) ∨
    (c = Call.unlock c.target ∧
      s.world.this_thread_hierarchy_value tid = s.world.value c.target ∧
      (s.exec tid c).2 =
        { world :=
            { this_thread_hierarchy_value :=
                Function.update s.world.this_thread_hierarchy_value tid
                  (s.world.mutexes c.target).previous_hierarchy_value,
              mutexes := Function.update s.world.mutexes c.target
                { hierarchy_value := s.world.value c.target,
                  previous_hierarchy_value :=
                    (s.world.mutexes c.target).previous_hierarchy_value,
                  internal_mutex := { owner := none } } },
          held := s.held.erase c.target }) := by
  cases c with
  | lock self =>
    by_cases hle : s.world.this_thread_hierarchy_value tid ≤ s.world.value self
    · left
      simp [ThreadRun.exec, World.lock_threw _ tid self hle]
    · have hlt : s.world.value self < s.world.this_thread_hierarchy_value tid :=
        Nat.not_le.mp hle
      cases ho : (s.world.mutexes self).internal_mutex.owner with
      | some o =>
        left
        simp [ThreadRun.exec, World.lock_blocked _ tid self o hlt ho]
      | none =>
        right; left
        simp [ThreadRun.exec, World.lock_returned _ tid self hlt ho, Call.target, hlt, ho]
  | try_lock self =>
    by_cases hle : s.world.this_thread_hierarchy_value tid ≤ s.world.value self
    · left
      simp [ThreadRun.exec, World.try_lock_threw _ tid self hle]
    · have hlt : s.world.value self < s.world.this_thread_hierarchy_value tid :=
        Nat.not_le.mp hle
      cases ho : (s.world.mutexes self).internal_mutex.owner with
      | some o =>
        left
        simp [ThreadRun.exec, World.try_lock_false _ tid self o hlt ho]
      | none =>
        right; left
        simp [ThreadRun.exec, World.try_lock_true _ tid self hlt ho, Call.target, hlt, ho]
  | unlock self =>
    by_cases hl : s.world.this_thread_hierarchy_value tid = s.world.value self
    · right; right
      simp [ThreadRun.exec, World.unlock_returned _ tid self hl, Call.target, hl]
    · left
      simp [ThreadRun.exec, World.unlock_threw _ tid self hl]

theorem inv_exec (tid : Nat) (s : ThreadRun) (c : Call) (h : s.inv tid)
    (hu : c = Call.unlock c.target →
      s.world.this_thread_hierarchy_value tid = s.world.value c.target →
      s.world.owns tid c.target = true) :
    (s.exec tid c).2.inv tid := by
  rcases exec_cases tid s c with h1 | ⟨_, hlt, ho, _, h2⟩ | ⟨hc, hl, h3⟩
  · rw [h1]; exact h
  · rw [h2]; exact inv_lock_returned tid c.target s h hlt ho
  · rw [h3]; exact inv_unlock_returned tid c.target s h hl (hu hc hl)

theorem exec_value (tid : Nat) (s : ThreadRun) (c : Call) (m : Nat) :
    (s.exec tid c).2.world.value m = s.world.value m := by
  rcases exec_cases tid s c with h1 | ⟨_, _, _, _, h2⟩ | ⟨_, _, h3⟩
  · rw [h1]
  · rw [h2]
    by_cases hm : m = c.target
    · subst hm; simp [World.value]
    · simp [World.value, Function.update_noteq hm]
  · rw [h3]
    by_cases hm : m = c.target
    · subst hm; simp [World.value]
    · simp [World.value, Function.update_noteq hm]

theorem exec_held_subset (tid : Nat) (s : ThreadRun) (c : Call) (objs : List Nat)
    (hs : ∀ m ∈ s.held, m ∈ objs) (hc : c.target ∈ objs) :
    ∀ m ∈ (s.exec tid c).2.held, m ∈ objs := by
  rcases exec_cases tid s c with h1 | ⟨_, _, _, _, h2⟩ | ⟨_, _, h3⟩
  · rw [h1]; exact hs
  · rw [h2]
    intro m hm
    rcases List.mem_cons.mp hm with rfl | hm'
    · exact hc
    · exact hs m hm'
  · rw [h3]
    intro m hm
    exact hs m (List.mem_of_mem_erase hm)

theorem run_cons (tid : Nat) (s : ThreadRun) (c : Call) (cs : List Call) :
    ThreadRun.run tid s (c :: cs) = (s.exec tid c).2 ∨
    ThreadRun.run tid s (c :: cs) = ThreadRun.run tid (s.exec tid c).2 cs := by
  rcases h : s.exec tid c with ⟨o, s'⟩
  cases o with
  | returned b => right; simp [ThreadRun.run, h]
  | threw e => right; simp [ThreadRun.run, h]
  | blocked => left; simp [ThreadRun.run, h]

theorem unlocks_owned_cons (tid : Nat) (s : ThreadRun) (c : Call) (cs : List Call)
    (h : ThreadRun.unlocks_owned tid s (c :: cs) = true) :
    (c = Call.unlock c.target → s.world.owns tid c.target = true) ∧
    (ThreadRun.run tid s (c :: cs) = (s.exec tid c).2 ∨
      (ThreadRun.run tid s (c :: cs) = ThreadRun.run tid (s.exec tid c).2 cs ∧
        ThreadRun.unlocks_owned tid (s.exec tid c).2 cs = true)) := by
  simp only [ThreadRun.unlocks_owned, Bool.and_eq_true] at h
  obtain ⟨h1, h2⟩ := h
  constructor
  · intro hc
    cases c with
    | lock self => cases hc
    | try_lock self => cases hc
    | unlock self => simpa [Call.target] using h1
  · rcases he : s.exec tid c with ⟨o, s'⟩
    rw [he] at h2
    cases o with
    | returned b => right; exact ⟨by simp [ThreadRun.run, he], by simpa using h2⟩
    | threw e => right; exact ⟨by simp [ThreadRun.run, he], by simpa using h2⟩
    | blocked => left; simp [ThreadRun.run, he]

theorem inv_run_owned (tid : Nat) (cs : List Call) :
    ∀ s : ThreadRun, s.inv tid → ThreadRun.unlocks_owned tid s cs = true →
      (ThreadRun.run tid s cs).inv tid := by
  induction cs with
  | nil => intro s h _; exact h
  | cons c cs ih =>
    intro s h hu
    obtain ⟨hown, hrun⟩ := unlocks_owned_cons tid s c cs hu
    have hstep : (s.exec tid c).2.inv tid := inv_exec tid s c h (fun hc _ => hown hc)
    rcases hrun with h1 | ⟨h1, h2⟩
    · rw [h1]; exact hstep
    · rw [h1]; exact ih _ hstep h2

theorem initial_inv (tid : Nat) (s : ThreadRun) (h : ThreadRun.initial tid s) :
    s.inv tid := by
  obtain ⟨hh, hl, ho⟩ := h
  constructor
  · rw [hh]; exact hl
  · intro m
    simp [ho m, hh]

theorem level_ne_of_not_head (tid self : Nat) (s : ThreadRun) (objs : List Nat)
    (h : s.inv tid) (hs : ∀ m ∈ s.held, m ∈ objs) (hself : self ∈ objs)
    (hd : ∀ m ∈ objs, ∀ m' ∈ objs, s.world.value m = s.world.value m' → m = m')
    (hb : ∀ m ∈ objs, s.world.value m < ULONG_MAX)
    (hn : s.held.head? ≠ some self) :
    s.world.this_thread_hierarchy_value tid ≠ s.world.value self := by
  intro hl
  obtain ⟨hc, _⟩ := h
  cases hh : s.held with
  | nil =>
    rw [hh] at hc
    have h1 : s.world.this_thread_hierarchy_value tid = ULONG_MAX := hc
    have := hb self hself
    omega
  | cons a rest =>
    rw [hh] at hc hn
    have ha : a ∈ objs := hs a (by rw [hh]; exact List.mem_cons_self _ _)
    have hv : s.world.value a = s.world.value self := by rw [← hc.1, hl]
    have := hd a ha self hself hv
    subst this
    simp at hn

theorem inv_run_distinct (tid : Nat) (objs : List Nat) (cs : List Call) :
    ∀ s : ThreadRun, s.inv tid → (∀ m ∈ s.held, m ∈ objs) →
      (∀ c ∈ cs, c.target ∈ objs) →
      (∀ m ∈ objs, ∀ m' ∈ objs, s.world.value m = s.world.value m' → m = m') →
      (∀ m ∈ objs, s.world.value m < ULONG_MAX) →
      (ThreadRun.run tid s cs).inv tid ∧
      (∀ m ∈ (ThreadRun.run tid s cs).held, m ∈ objs) ∧
      (∀ m, (ThreadRun.run tid s cs).world.value m = s.world.value m) := by
  induction cs with
  | nil => intro s h hs _ _ _; exact ⟨h, hs, fun _ => rfl⟩
  | cons c cs ih =>
    intro s h hs hc hd hb
    have hct : c.target ∈ objs := hc c (List.mem_cons_self _ _)
    have hstep : (s.exec tid c).2.inv tid := by
      refine inv_exec tid s c h ?_
      intro _ hl
      by_contra hno
      have hhead : s.held.head? ≠ some c.target := by
        intro hh
        have hm : c.target ∈ s.held := by
          cases hl' : s.held with
          | nil => rw [hl'] at hh; simp at hh
          | cons a rest =>
            rw [hl'] at hh
            simp at hh
            simp [hh]
        exact hno ((h.2 c.target).mpr hm)
      exact level_ne_of_not_head tid c.target s objs h hs hct hd hb hhead hl
    have hsub := exec_held_subset tid s c objs hs hct
    have hval := exec_value tid s c
    rcases run_cons tid s c cs with h1 | h1
    · rw [h1]; exact ⟨hstep, hsub, hval⟩
    · rw [h1]
      have hd' : ∀ m ∈ objs, ∀ m' ∈ objs,
          (s.exec tid c).2.world.value m = (s.exec tid c).2.world.value m' → m = m' := by
        intro m hm m' hm' hv
        rw [hval, hval] at hv
        exact hd m hm m' hm' hv
      have hb' : ∀ m ∈ objs, (s.exec tid c).2.world.value m < ULONG_MAX := by
        intro m hm
        rw [hval]
        exact hb m hm
      obtain ⟨r1, r2, r3⟩ := ih _ hstep hsub
        (fun c' hc' => hc c' (List.mem_cons_of_mem _ hc')) hd' hb'
      exact ⟨r1, r2, fun m => by rw [r3, hval]⟩

theorem listing_3_7_initial (tid : Nat) :
    ThreadRun.initial tid { world := listing_3_7, held := [] } := by
  refine ⟨rfl, rfl, ?_⟩
  intro m
  match m with
  | 0 => rfl
  | 1 => rfl
  | 2 => rfl
  | _ + 3 => rfl

/-- C6 as stated fails: with `A(5000)` (object 0) and `B(5000)` (object 1), a thread
that has locked `A` and never locked `B` calls `B.unlock()`. `B` is not a lock the
thread holds, yet the call does not throw: the test
`this_thread_hierarchy_value != hierarchy_value` is false (5000 against 5000), and
the next statement sets the thread's level to `B`'s saved previous level 0, all
before `internal_mutex.unlock()` is reached. -/
theorem unlock_same_value_counterexample :
    ThreadRun.initial 0 { world := same_value_world, held := [] } ∧
    (ThreadRun.run 0 { world := same_value_world, held := [] } [Call.lock 0]).held = [0] ∧
    (ThreadRun.run 0 { world := same_value_world, held := [] }
        [Call.lock 0]).world.owns 0 1 = false ∧
    (ThreadRun.run 0 { world := same_value_world, held := [] }
        [Call.lock 0]).world.this_thread_hierarchy_value 0 = 5000 ∧
    ((ThreadRun.run 0 { world := same_value_world, held := [] }
        [Call.lock 0]).world.unlock 0 1).1 ≠ Outcome.threw Exn.logic_error ∧
    ((ThreadRun.run 0 { world := same_value_world, held := [] }
        [Call.lock 0]).world.unlock 0 1).2.this_thread_hierarchy_value 0 = 0 := by
  refine ⟨⟨rfl, rfl, fun m => rfl⟩, ?_, ?_, ?_, ?_, ?_⟩ <;> decide

/-- C6, amended: `m.unlock()` throws `std::logic_error` and leaves the whole world
(the caller's level and `m`'s internal mutex included) as it was whenever the
caller's level differs from `m`'s hierarchy value. When the objects in use have
pairwise distinct hierarchy values, all below `ULONG_MAX`, that is the case in
every reachable state for every `m`, held or not, that is not the most recently
acquired lock the thread still holds. In listing 3.7, after locking
`high_level_mutex(10000)` and then `low_level_mutex(5000)`, unlocking
`high_level_mutex` throws while `low_level_mutex` is still held. -/
theorem hierarchical_mutex_unlock_out_of_order (tid self : Nat) :
    (∀ w : World, w.this_thread_hierarchy_value tid ≠ w.value self →
      w.unlock tid self = (Outcome.threw Exn.logic_error, w)) ∧
    (∀ (s0 : ThreadRun) (cs : List Call) (objs : List Nat),
      ThreadRun.initial tid s0 → self ∈ objs → (∀ c ∈ cs, c.target ∈ objs) →
      (∀ m ∈ objs, ∀ m' ∈ objs, s0.world.value m = s0.world.value m' → m = m') →
      (∀ m ∈ objs, s0.world.value m < ULONG_MAX) →
      (ThreadRun.run tid s0 cs).held.head? ≠ some self →
      (ThreadRun.run tid s0 cs).world.unlock tid self
        = (Outcome.threw Exn.logic_error, (ThreadRun.run tid s0 cs).world)) ∧
    (((ThreadRun.run 0 { world := listing_3_7, held := [] }
        [Call.lock 0, Call.lock 1]).world.unlock 0 0).1 = Outcome.threw Exn.logic_error ∧
      (ThreadRun.run 0 { world := listing_3_7, held := [] }
        [Call.lock 0, Call.lock 1]).world.owns 0 1 = true) := by
  refine ⟨fun w h => World.unlock_threw w tid self h, ?_, by decide, by decide⟩
  intro s0 cs objs h0 hself hc hd hb hn
  have hinit := initial_inv tid s0 h0
  have hs0 : ∀ m ∈ s0.held, m ∈ objs := by
    intro m hm
    rw [h0.1] at hm
    simp at hm
  obtain ⟨r1, r2, r3⟩ := inv_run_distinct tid objs cs s0 hinit hs0 hc hd hb
  apply World.unlock_threw
  refine level_ne_of_not_head tid self _ objs r1 r2 hself ?_ ?_ hn
  · intro m hm m' hm' hv
    rw [r3, r3] at hv
    exact hd m hm m' hm' hv
  · intro m hm
    rw [r3]
    exact hb m hm

/-- C6 at listing 3.7: holding `high_level_mutex` then `low_level_mutex`, the call
`high_level_mutex.unlock()` throws and changes nothing. -/
theorem hierarchical_mutex_unlock_out_of_order_witness :
    (ThreadRun.run 0 { world := listing_3_7, held := [] }
        [Call.lock 0, Call.lock 1]).held.head? ≠ some 0 ∧
    (ThreadRun.run 0 { world := listing_3_7, held := [] }
        [Call.lock 0, Call.lock 1]).world.unlock 0 0
      = (Outcome.threw Exn.logic_error,
          (ThreadRun.run 0 { world := listing_3_7, held := [] }
            [Call.lock 0, Call.lock 1]).world) :=
  ⟨by decide,
    (hierarchical_mutex_unlock_out_of_order 0 0).2.1
      { world := listing_3_7, held := [] } [Call.lock 0, Call.lock 1] [0, 1, 2]
      (listing_3_7_initial 0) (by decide) (by decide) (by decide) (by decide) (by decide)⟩

/-- C7 as stated fails: with `A(5000)` (object 0) and `B(5000)` (object 1), the
calls `A.lock()` then `B.unlock()` made by a thread that starts holding nothing
lead to a state in which the thread still holds `A` (hierarchy value 5000) and its
level is 0, not the hierarchy value of its most recently acquired still-held
lock. -/
theorem lock_order_invariant_counterexample :
    ThreadRun.initial 0 { world := same_value_world, held := [] } ∧
    (ThreadRun.run 0 { world := same_value_world, held := [] }
        [Call.lock 0, Call.unlock 1]).world.owns 0 0 = true ∧
    (ThreadRun.run 0 { world := same_value_world, held := [] }
        [Call.lock 0, Call.unlock 1]).held = [0] ∧
    (ThreadRun.run 0 { world := same_value_world, held := [] }
        [Call.lock 0, Call.unlock 1]).world.value 0 = 5000 ∧
    (ThreadRun.run 0 { world := same_value_world, held := [] }
        [Call.lock 0, Call.unlock 1]).world.this_thread_hierarchy_value 0 = 0 ∧
    (ThreadRun.run 0 { world := same_value_world, held := [] }
        [Call.lock 0, Call.unlock 1]).world.this_thread_hierarchy_value 0
      ≠ (ThreadRun.run 0 { world := same_value_world, held := [] }
        [Call.lock 0, Call.unlock 1]).expected_level := by
  refine ⟨⟨rfl, rfl, fun m => rfl⟩, ?_, ?_, ?_, ?_, ?_⟩ <;> decide

/-- C7, amended: in every state reachable from an initial state (no lock held,
level `ULONG_MAX`) by a sequence of `lock()`, `try_lock()` and `unlock()` calls of
one thread on any objects, in which `unlock()` is called only on objects whose
internal mutex the thread owns, the locks the thread still holds have, in
acquisition order, strictly decreasing hierarchy values; the thread's level is the
hierarchy value of the most recently acquired still-held lock (`ULONG_MAX` when
none is held); the held locks are exactly the objects whose internal mutex the
thread owns; and a `lock()` that returns or a `try_lock()` that returns `true` in
that state is on an object whose hierarchy value is smaller than that of every
lock the thread holds. -/
theorem hierarchical_mutex_lock_order_invariant (tid : Nat) (s0 : ThreadRun)
    (cs : List Call) (h0 : ThreadRun.initial tid s0)
    (hu : ThreadRun.unlocks_owned tid s0 cs = true) :
    (((ThreadRun.run tid s0 cs).held.reverse.map
        (ThreadRun.run tid s0 cs).world.value).Pairwise (· > ·)) ∧
    (ThreadRun.run tid s0 cs).world.this_thread_hierarchy_value tid
      = (ThreadRun.run tid s0 cs).expected_level ∧
    (∀ m, (ThreadRun.run tid s0 cs).world.owns tid m = true ↔
      m ∈ (ThreadRun.run tid s0 cs).held) ∧
    (∀ m, (((ThreadRun.run tid s0 cs).world.lock tid m).1 = Outcome.returned () ∨
        ((ThreadRun.run tid s0 cs).world.try_lock tid m).1 = Outcome.returned true) →
      ∀ h ∈ (ThreadRun.run tid s0 cs).held,
        (ThreadRun.run tid s0 cs).world.value m < (ThreadRun.run tid s0 cs).world.value h) := by
  have hinv := inv_run_owned tid cs s0 (initial_inv tid s0 h0) hu
  obtain ⟨hc, hown⟩ := hinv
  refine ⟨?_, chain_expected_level _ _ hc, hown, ?_⟩
  · rw [List.pairwise_map, List.pairwise_reverse]
    have := chain_pairwise _ _ _ hc
    rw [List.pairwise_map] at this
    exact this
  · intro m hm h hh
    have hle := chain_le _ _ _ hc h hh
    have hlt : (ThreadRun.run tid s0 cs).world.value m
        < (ThreadRun.run tid s0 cs).world.this_thread_hierarchy_value tid := by
      by_contra hno
      have hle' := Nat.not_lt.mp hno
      rcases hm with hm | hm
      · rw [World.lock_threw _ tid m hle'] at hm
        simp at hm
      · rw [World.try_lock_threw _ tid m hle'] at hm
        simp at hm
    omega

/-- C7 at listing 3.7: `high_level_func` calling `low_level_func` and returning,
followed by a `try_lock()` of `other_mutex`. -/
theorem hierarchical_mutex_lock_order_invariant_witness :
    ThreadRun.unlocks_owned 0 { world := listing_3_7, held := [] }
        [Call.lock 0, Call.lock 1, Call.unlock 1, Call.try_lock 2] = true ∧
    (ThreadRun.run 0 { world := listing_3_7, held := [] }
        [Call.lock 0, Call.lock 1, Call.unlock 1, Call.try_lock 2]).held = [2, 0] ∧
    (ThreadRun.run 0 { world := listing_3_7, held := [] }
        [Call.lock 0, Call.lock 1, Call.unlock 1, Call.try_lock 2]
      ).world.this_thread_hierarchy_value 0
      = (ThreadRun.run 0 { world := listing_3_7, held := [] }
        [Call.lock 0, Call.lock 1, Call.unlock 1, Call.try_lock 2]).expected_level :=
  ⟨by decide, by decide,
    (hierarchical_mutex_lock_order_invariant 0 { world := listing_3_7, held := [] }
      [Call.lock 0, Call.lock 1, Call.unlock 1, Call.try_lock 2]
      (listing_3_7_initial 0) (by decide)).2.1⟩

/-! ## Theorems: lock/unlock round trip -/

theorem exec_lock_ok (tid self : Nat) (s : ThreadRun)
    (hlt : s.world.value self < s.world.this_thread_hierarchy_value tid)
    (ho : (s.world.mutexes self).internal_mutex.owner = none) (c : Call)
    (hc : c = Call.lock self ∨ c = Call.try_lock self) :
    s.exec tid c = (Outcome.returned true,
      { world :=
          { this_thread_hierarchy_value :=
              Function.update s.world.this_thread_hierarchy_value tid (s.world.value self),
            mutexes := Function.update s.world.mutexes self
              { hierarchy_value := s.world.value self,
                previous_hierarchy_value := s.world.this_thread_hierarchy_value tid,
                internal_mutex := { owner := some tid } } },
        held := self :: s.held }) := by
  rcases hc with rfl | rfl
  · simp [ThreadRun.exec, World.lock_returned _ tid self hlt ho]
  · simp [ThreadRun.exec, World.try_lock_true _ tid self hlt ho]

theorem exec_unlock_ok (tid self : Nat) (s : ThreadRun)
    (hl : s.world.this_thread_hierarchy_value tid = s.world.value self) :
    s.exec tid (Call.unlock self) = (Outcome.returned true,
      { world :=
          { this_thread_hierarchy_value :=
              Function.update s.world.this_thread_hierarchy_value tid
                (s.world.mutexes self).previous_hierarchy_value,
            mutexes := Function.update s.world.mutexes self
              { hierarchy_value := s.world.value self,
                previous_hierarchy_value := (s.world.mutexes self).previous_hierarchy_value,
                internal_mutex := { owner := none } } },
        held := s.held.erase self }) := by
  simp [ThreadRun.exec, World.unlock_returned _ tid self hl]

theorem innermost_value_eq_level (tid : Nat) (s : ThreadRun) (value : Nat → Nat)
    (h : s.inv tid) (hv : ∀ m, s.world.value m = value m) :
    innermost_value value s.held = s.world.this_thread_hierarchy_value tid := by
  obtain ⟨hc, _⟩ := h
  cases hh : s.held with
  | nil => rw [hh] at hc; exact hc.symm
  | cons a rest =>
    rw [hh] at hc
    simp only [innermost_value]
    rw [← hv a]
    exact hc.1.symm

theorem nested_acquire_step (tid m : Nat) (objs : List Nat) (value : Nat → Nat)
    (s : ThreadRun) (c : Call) (hc : c = Call.lock m ∨ c = Call.try_lock m)
    (h : s.inv tid)
    (hfree : ∀ m ∈ objs, m ∉ s.held → (s.world.mutexes m).internal_mutex.owner = none)
    (hv : ∀ m, s.world.value m = value m) (hm : m ∈ objs)
    (hd : value m < innermost_value value s.held) :
    s.exec tid c = (Outcome.returned true, (s.exec tid c).2) ∧
    (s.exec tid c).2.inv tid ∧
    (s.exec tid c).2.held = m :: s.held ∧
    (∀ m' ∈ objs, m' ∉ (s.exec tid c).2.held →
      ((s.exec tid c).2.world.mutexes m').internal_mutex.owner = none) ∧
    (∀ m', (s.exec tid c).2.world.value m' = value m') := by
  have hlt : s.world.value m < s.world.this_thread_hierarchy_value tid := by
    rw [hv m, ← innermost_value_eq_level tid s value h hv]
    exact hd
  have hnot : m ∉ s.held := by
    intro hmem
    have := chain_le s.world s.held _ h.1 m hmem
    omega
  have ho := hfree m hm hnot
  have hexec := exec_lock_ok tid m s hlt ho c hc
  refine ⟨by rw [hexec], ?_, by rw [hexec], ?_, ?_⟩
  · rw [hexec]
    exact inv_lock_returned tid m s h hlt ho
  · intro m' hm' hnot'
    rw [hexec] at hnot' ⊢
    have hne : m' ≠ m := fun e => hnot' (e ▸ List.mem_cons_self _ _)
    have hnh : m' ∉ s.held := fun e => hnot' (List.mem_cons_of_mem _ e)
    simpa [Function.update_noteq hne] using hfree m' hm' hnh
  · intro m'
    rw [exec_value, hv]

theorem nested_release_step (tid m : Nat) (objs : List Nat) (value : Nat → Nat)
    (s : ThreadRun) (rest : List Nat) (h : s.inv tid)
    (hfree : ∀ m ∈ objs, m ∉ s.held → (s.world.mutexes m).internal_mutex.owner = none)
    (hv : ∀ m, s.world.value m = value m) (hh : s.held = m :: rest) :
    s.exec tid (Call.unlock m) = (Outcome.returned true, (s.exec tid (Call.unlock m)).2) ∧
    (s.exec tid (Call.unlock m)).2.inv tid ∧
    (s.exec tid (Call.unlock m)).2.held = rest ∧
    (∀ m' ∈ objs, m' ∉ (s.exec tid (Call.unlock m)).2.held →
      ((s.exec tid (Call.unlock m)).2.world.mutexes m').internal_mutex.owner = none) ∧
    (∀ m', (s.exec tid (Call.unlock m)).2.world.value m' = value m') := by
  have hc := h.1
  rw [hh] at hc
  have hl : s.world.this_thread_hierarchy_value tid = s.world.value m := hc.1
  have hown : s.world.owns tid m = true := (h.2 m).mpr (by rw [hh]; exact List.mem_cons_self _ _)
  have hexec := exec_unlock_ok tid m s hl
  have hheld : (s.exec tid (Call.unlock m)).2.held = rest := by
    rw [hexec, hh]
    simp
  refine ⟨by rw [hexec], ?_, hheld, ?_, ?_⟩
  · rw [hexec]
    exact inv_unlock_returned tid m s h hl hown
  · intro m' hm' hnot'
    rw [hheld] at hnot'
    rw [hexec]
    by_cases hne : m' = m
    · subst hne
      simp
    · have hnh : m' ∉ s.held := by
        rw [hh]
        intro e
        rcases List.mem_cons.mp e with e | e
        · exact hne e
        · exact hnot' e
      simpa [Function.update_noteq hne] using hfree m' hm' hnh
  · intro m'
    rw [exec_value, hv]

theorem nested_run_ok (tid : Nat) (objs : List Nat) (value : Nat → Nat) (cs : List Call) :
    ∀ s : ThreadRun, s.inv tid →
      (∀ m ∈ objs, m ∉ s.held → (s.world.mutexes m).internal_mutex.owner = none) →
      (∀ m, s.world.value m = value m) →
      (∀ c ∈ cs, c.target ∈ objs) →
      properly_nested s.held cs = true → descends value s.held cs = true →
      ThreadRun.outcomes tid s cs = List.replicate cs.length (Outcome.returned true) ∧
      (ThreadRun.run tid s cs).held = [] ∧
      (ThreadRun.run tid s cs).world.this_thread_hierarchy_value tid = ULONG_MAX ∧
      (∀ m ∈ objs,
        ((ThreadRun.run tid s cs).world.mutexes m).internal_mutex.owner = none) := by
  induction cs with
  | nil =>
    intro s h hfree _ _ hn _
    have hh : s.held = [] := by simpa [properly_nested] using hn
    refine ⟨rfl, hh, ?_, ?_⟩
    · have hc := h.1
      rw [hh] at hc
      exact hc
    · intro m hm
      exact hfree m hm (by rw [hh]; simp)
  | cons c cs ih =>
    intro s h hfree hv ht hn hd
    have ht' : ∀ c' ∈ cs, c'.target ∈ objs := fun c' hc' => ht c' (List.mem_cons_of_mem _ hc')
    have hct : c.target ∈ objs := ht c (List.mem_cons_self _ _)
    cases c with
    | lock m =>
      simp only [properly_nested] at hn
      simp only [descends, Bool.and_eq_true, decide_eq_true_eq] at hd
      obtain ⟨he, hi, hheld, hf, hv'⟩ :=
        nested_acquire_step tid m objs value s (Call.lock m) (Or.inl rfl) h hfree hv hct hd.1
      have := ih _ hi hf hv' ht' (by rw [hheld]; exact hn) (by rw [hheld]; exact hd.2)
      rw [ThreadRun.outcomes, ThreadRun.run, he]
      simpa [List.replicate_succ] using this
    | try_lock m =>
      simp only [properly_nested] at hn
      simp only [descends, Bool.and_eq_true, decide_eq_true_eq] at hd
      obtain ⟨he, hi, hheld, hf, hv'⟩ :=
        nested_acquire_step tid m objs value s (Call.try_lock m) (Or.inr rfl) h hfree hv hct
          hd.1
      have := ih _ hi hf hv' ht' (by rw [hheld]; exact hn) (by rw [hheld]; exact hd.2)
      rw [ThreadRun.outcomes, ThreadRun.run, he]
      simpa [List.replicate_succ] using this
    | unlock m =>
      cases hh : s.held with
      | nil => rw [hh] at hn; simp [properly_nested] at hn
      | cons top rest =>
        rw [hh] at hn hd
        simp only [properly_nested, Bool.and_eq_true, decide_eq_true_eq] at hn
        simp only [descends, List.tail_cons] at hd
        obtain ⟨hmt, hn'⟩ := hn
        subst hmt
        obtain ⟨he, hi, hheld, hf, hv'⟩ :=
          nested_release_step tid m objs value s rest h hfree hv hh
        have := ih _ hi hf hv' ht' (by rw [hheld]; exact hn') (by rw [hheld]; exact hd)
        rw [ThreadRun.outcomes, ThreadRun.run, he]
        simpa [List.replicate_succ] using this

theorem listing_3_7_free (m : Nat) : (listing_3_7.mutexes m).internal_mutex.owner = none := by
  match m with
  | 0 => rfl
  | 1 => rfl
  | 2 => rfl
  | _ + 3 => rfl

/-- C11 as stated fails: in listing 3.7 the sequence `low_level_mutex.lock()`,
`high_level_mutex.lock()`, `high_level_mutex.unlock()`, `low_level_mutex.unlock()`
made by a thread holding nothing, with every internal mutex free, is properly
nested, yet its second step throws `std::logic_error` (and so does the third). -/
theorem nested_ascending_counterexample :
    ThreadRun.initial 0 { world := listing_3_7, held := [] } ∧
    properly_nested [] [Call.lock 1, Call.lock 0, Call.unlock 0, Call.unlock 1] = true ∧
    ThreadRun.outcomes 0 { world := listing_3_7, held := [] }
        [Call.lock 1, Call.lock 0, Call.unlock 0, Call.unlock 1]
      = [Outcome.returned true, Outcome.threw Exn.logic_error,
          Outcome.threw Exn.logic_error, Outcome.returned true] := by
  refine ⟨⟨rfl, rfl, fun m => ?_⟩, by decide, by decide⟩
  simp [World.owns, listing_3_7_free]

/-- C11, amended: when `m.lock()` passes the ordering check and the internal mutex
is free, the call returns, the caller owns the internal mutex, its level is `m`'s
hierarchy value and `m` has saved the previous level; the following `m.unlock()`
by the same thread returns, restores the level to its value before the `lock()`
and frees the internal mutex. (While another thread owns the internal mutex the
`lock()` stays blocked and changes nothing.) Consequently every properly nested
sequence in which each acquisition is of an object whose hierarchy value is below
that of the innermost lock then open (below `ULONG_MAX` at the outermost level),
made by a thread holding nothing on objects whose internal mutexes are free,
returns at every step and ends with the thread's level `ULONG_MAX`, no lock held
and those internal mutexes free; so does `high_level_mutex.lock()`,
`low_level_mutex.lock()`, `low_level_mutex.unlock()`, `high_level_mutex.unlock()`
in listing 3.7. -/
theorem hierarchical_mutex_lock_unlock_roundtrip (tid : Nat) :
    (∀ (w : World) (self : Nat),
      w.value self < w.this_thread_hierarchy_value tid →
      (w.mutexes self).internal_mutex.owner = none →
      (w.lock tid self).1 = Outcome.returned () ∧
      ((w.lock tid self).2.mutexes self).internal_mutex.owner = some tid ∧
      (w.lock tid self).2.this_thread_hierarchy_value tid = w.value self ∧
      ((w.lock tid self).2.mutexes self).previous_hierarchy_value
        = w.this_thread_hierarchy_value tid ∧
      ((w.lock tid self).2.unlock tid self).1 = Outcome.returned () ∧
      ((w.lock tid self).2.unlock tid self).2.this_thread_hierarchy_value tid
        = w.this_thread_hierarchy_value tid ∧
      (((w.lock tid self).2.unlock tid self).2.mutexes self).internal_mutex.owner = none) ∧
    (∀ (w : World) (self o : Nat),
      w.value self < w.this_thread_hierarchy_value tid →
      (w.mutexes self).internal_mutex.owner = some o →
      w.lock tid self = (Outcome.blocked, w)) ∧
    (∀ (s0 : ThreadRun) (cs : List Call),
      ThreadRun.initial tid s0 →
      (∀ c ∈ cs, (s0.world.mutexes c.target).internal_mutex.owner = none) →
      properly_nested [] cs = true → descends s0.world.value [] cs = true →
      ThreadRun.outcomes tid s0 cs = List.replicate cs.length (Outcome.returned true) ∧
      (ThreadRun.run tid s0 cs).held = [] ∧
      (ThreadRun.run tid s0 cs).world.this_thread_hierarchy_value tid = ULONG_MAX ∧
      (∀ c ∈ cs,
        ((ThreadRun.run tid s0 cs).world.mutexes c.target).internal_mutex.owner = none)) ∧
    (ThreadRun.outcomes 0 { world := listing_3_7, held := [] }
        [Call.lock 0, Call.lock 1, Call.unlock 1, Call.unlock 0]
      = [Outcome.returned true, Outcome.returned true, Outcome.returned true,
          Outcome.returned true] ∧
      (ThreadRun.run 0 { world := listing_3_7, held := [] }
        [Call.lock 0, Call.lock 1, Call.unlock 1, Call.unlock 0]
        ).world.this_thread_hierarchy_value 0 = ULONG_MAX) := by
  refine ⟨?_, ?_, ?_, by decide, by decide⟩
  · intro w self hlt ho
    have hl := World.lock_returned w tid self hlt ho
    rw [hl]
    refine ⟨rfl, by simp, by simp, by simp, ?_⟩
    rw [World.unlock_returned _ tid self (by simp [World.value])]
    simp
  · intro w self o hlt ho
    exact World.lock_blocked w tid self o hlt ho
  · intro s0 cs h0 hfree hn hd
    have hinv := initial_inv tid s0 h0
    have hres := nested_run_ok tid (cs.map Call.target) s0.world.value cs s0 hinv
      (by
        intro m hm _
        obtain ⟨c, hc, rfl⟩ := List.mem_map.mp hm
        exact hfree c hc)
      (fun _ => rfl)
      (fun c hc => List.mem_map.mpr ⟨c, hc, rfl⟩)
      (by rw [h0.1]; exact hn) (by rw [h0.1]; exact hd)
    obtain ⟨r1, r2, r3, r4⟩ := hres
    exact ⟨r1, r2, r3, fun c hc => r4 _ (List.mem_map.mpr ⟨c, hc, rfl⟩)⟩

/-- C11 at listing 3.7: `high_level_func` calling `low_level_func`. -/
theorem hierarchical_mutex_lock_unlock_roundtrip_witness :
    ThreadRun.outcomes 0 { world := listing_3_7, held := [] }
        [Call.lock 0, Call.lock 1, Call.unlock 1, Call.unlock 0]
      = List.replicate 4 (Outcome.returned true) ∧
    (ThreadRun.run 0 { world := listing_3_7, held := [] }
        [Call.lock 0, Call.lock 1, Call.unlock 1, Call.unlock 0]).held = [] :=
  have h := (hierarchical_mutex_lock_unlock_roundtrip 0).2.2.1
    { world := listing_3_7, held := [] }
    [Call.lock 0, Call.lock 1, Call.unlock 1, Call.unlock 0]
    (listing_3_7_initial 0) (fun c _ => listing_3_7_free c.target) (by decide) (by decide)
  ⟨h.1, h.2.1⟩

/-! ## Theorems: copy construction and `push` with their synchronisation -/

/-- C12, the code at a failing input: thread 0 copy-constructs a
`threadsafe_stack` from `other` holding `[1, 2, 3]` while thread 1 owns `other`'s
mutex. The constructor's events are lock own mutex, copy, unlock own mutex: it
runs to the end without waiting, and it reads `other`'s sequence while
`other`'s mutex is not owned by the copying thread (also when that mutex is free:
it is never acquired). The copy constructor of `threadsafe_queue` in the same
situation waits, and with `other`'s mutex free it reads under that mutex. -/
theorem threadsafe_stack_copy_locks_own_mutex :
    threadsafe_stack.copy_events (T := Nat)
      = [SyncEvent.lock Mtx.own, SyncEvent.copy_from_other, SyncEvent.unlock Mtx.own] ∧
    (run_sync 0 threadsafe_stack.copy_events
        { mtx := { owner := none }, data := [], other_mtx := { owner := some 1 },
          other_data := [1, 2, 3] }).2
      = { mtx := { owner := none }, data := [1, 2, 3], other_mtx := { owner := some 1 },
          other_data := [1, 2, 3] } ∧
    reads_other_locked 0 (run_sync 0 threadsafe_stack.copy_events
        { mtx := { owner := none }, data := [], other_mtx := { owner := some 1 },
          other_data := [1, 2, 3] }).1 = false ∧
    reads_other_locked 0 (run_sync 0 threadsafe_stack.copy_events
        { mtx := { owner := none }, data := [], other_mtx := { owner := none },
          other_data := [1, 2, 3] }).1 = false ∧
    (run_sync 0 threadsafe_queue.copy_events
        { mtx := { owner := none }, data := [], other_mtx := { owner := some 1 },
          other_data := [1, 2, 3] }).1 = [] ∧
    reads_other_locked 0 (run_sync 0 threadsafe_queue.copy_events
        { mtx := { owner := none }, data := [], other_mtx := { owner := none },
          other_data := [1, 2, 3] }).1 = true ∧
    (run_sync 0 threadsafe_queue.copy_events
        { mtx := { owner := none }, data := [], other_mtx := { owner := none },
          other_data := [1, 2, 3] }).2.data = [1, 2, 3] := by
  refine ⟨rfl, ?_, ?_, ?_, ?_, ?_, ?_⟩ <;> decide

/-- C13 as stated fails: `push(7)` by thread 0 on a queue holding `[1]` executes
lock, `push_back(7)`, `notify_one`, unlock in that order; its one signal is made
while thread 0 still owns the mutex, before the release and not after it. -/
theorem push_notifies_before_release_counterexample :
    threadsafe_queue.push_events (7 : Nat)
      = [SyncEvent.lock Mtx.own, SyncEvent.push_back 7, SyncEvent.notify_one,
          SyncEvent.unlock Mtx.own] ∧
    signals 0 (run_sync 0 (threadsafe_queue.push_events (7 : Nat))
        { mtx := { owner := none }, data := [1], other_mtx := { owner := none },
          other_data := [] }).1 = [(true, true)] ∧
    List.indexOf SyncEvent.notify_one (threadsafe_queue.push_events (7 : Nat))
      < List.indexOf (SyncEvent.unlock Mtx.own) (threadsafe_queue.push_events (7 : Nat)) := by
  refine ⟨rfl, ?_, ?_⟩ <;> decide

/-- C13, amended: every call `push(v)` performs, in this order: acquire the queue's
mutex, append exactly `v` at the back of the sequence (all earlier elements
unchanged), signal the condition variable with one `notify_one` while still
holding the mutex, and only then release the mutex; there is exactly one signal
per call, it is a `notify_one`, never a `notify_all`. The sequence it leaves is
the one of `threadsafe_queue.push`. -/
theorem threadsafe_queue_push_order {T : Type} (tid : Nat) (v : T) (st : SyncState T)
    (hfree : st.mtx.owner = none) :
    threadsafe_queue.push_events v
      = [SyncEvent.lock Mtx.own, SyncEvent.push_back v, SyncEvent.notify_one,
          SyncEvent.unlock Mtx.own] ∧
    (run_sync tid (threadsafe_queue.push_events v) st).1.map Prod.fst
      = threadsafe_queue.push_events v ∧
    (run_sync tid (threadsafe_queue.push_events v) st).2
      = { st with data := st.data ++ [v], mtx := { owner := none } } ∧
    (run_sync tid (threadsafe_queue.push_events v) st).2.data
      = (threadsafe_queue.push { data_queue := st.data } v).data_queue ∧
    signals tid (run_sync tid (threadsafe_queue.push_events v) st).1 = [(true, true)] := by
  cases st with
  | mk mtx data other_mtx other_data =>
    cases mtx with
    | mk owner =>
      simp only at hfree
      subst hfree
      simp [threadsafe_queue.push_events, lock_guard, run_sync, SyncEvent.exec,
        std_mutex.lock, std_mutex.unlock, signals, threadsafe_queue.push]

/-- C13 at a concrete call: `push(7)` by thread 0 on a queue holding `[1]`. -/
theorem threadsafe_queue_push_order_witness :
    (run_sync 0 (threadsafe_queue.push_events (7 : Nat))
        { mtx := { owner := none }, data := [1], other_mtx := { owner := none },
          other_data := [] }).2
      = { mtx := { owner := none }, data := [1, 7], other_mtx := { owner := none },
          other_data := [] } ∧
    signals 0 (run_sync 0 (threadsafe_queue.push_events (7 : Nat))
        { mtx := { owner := none }, data := [1], other_mtx := { owner := none },
          other_data := [] }).1 = [(true, true)] :=
  have h := threadsafe_queue_push_order 0 (7 : Nat)
    { mtx := { owner := none }, data := [1], other_mtx := { owner := none },
      other_data := [] } rfl
  ⟨h.2.2.1, h.2.2.2.2⟩

/-! ## Theorems: `parallel_accumulate` -/

theorem std_accumulate_eq_sum {T : Type} [AddMonoid T] (range : List T) :
    ∀ init : T, std_accumulate range init = init + range.sum := by
  induction range with
  | nil => intro init; simp [std_accumulate]
  | cons x xs ih =>
    intro init
    have := ih (init + x)
    simp only [std_accumulate, List.foldl_cons, List.sum_cons] at this ⊢
    rw [this, add_assoc]

theorem spawn_blocks_ok {T : Type} (n block_size : Nat) :
    ∀ xs : List T, n * block_size ≤ xs.length →
      ∃ blocks rest, spawn_blocks n block_size xs = Except.ok (blocks, rest) ∧
        blocks.flatten ++ rest = xs ∧ blocks.length = n ∧
        ∀ b ∈ blocks, b.length = block_size := by
  induction n with
  | zero =>
    intro xs _
    exact ⟨[], xs, rfl, by simp, rfl, by simp⟩
  | succ n ih =>
    intro xs h
    have hb : block_size ≤ xs.length := by
      have : block_size ≤ (n + 1) * block_size := Nat.le_mul_of_pos_left _ (Nat.succ_pos n)
      omega
    have hrest : n * block_size ≤ (xs.drop block_size).length := by
      rw [List.length_drop]
      have : (n + 1) * block_size = n * block_size + block_size := by ring
      omega
    obtain ⟨blocks, rest, hs, hcat, hlen, hall⟩ := ih (xs.drop block_size) hrest
    refine ⟨xs.take block_size :: blocks, rest, ?_, ?_, by simp [hlen], ?_⟩
    · simp [spawn_blocks, hb, hs]
    · simp only [List.flatten_cons, List.append_assoc, hcat, List.take_append_drop]
    · intro b hbm
      rcases List.mem_cons.mp hbm with rfl | hbm'
      · simp [List.length_take, hb]
      · exact hall b hbm'

theorem num_threads_bounds (hardware_concurrency length : Nat) (hpos : 0 < length)
    (hlen : length + 24 < 2 ^ 64) :
    0 < min (if hardware_concurrency % 2 ^ 32 ≠ 0 then hardware_concurrency % 2 ^ 32 else 2)
        (((length % 2 ^ 64 + 25 - 1) % 2 ^ 64) / 25) ∧
    min (if hardware_concurrency % 2 ^ 32 ≠ 0 then hardware_concurrency % 2 ^ 32 else 2)
        (((length % 2 ^ 64 + 25 - 1) % 2 ^ 64) / 25) ≤ length := by
  have h1 : length % 2 ^ 64 = length := Nat.mod_eq_of_lt (by omega)
  have h2 : (length + 25 - 1) % 2 ^ 64 = length + 24 := by
    rw [Nat.mod_eq_of_lt (by omega)]
    omega
  rw [h1, h2]
  have hmax : 0 < (length + 24) / 25 := Nat.div_pos (by omega) (by norm_num)
  have hmax' : (length + 24) / 25 ≤ length := by
    apply Nat.div_le_of_le_mul
    omega
  constructor
  · by_cases hz : hardware_concurrency % 2 ^ 32 ≠ 0
    · rw [if_pos hz]
      exact lt_min (Nat.pos_of_ne_zero hz) hmax
    · rw [if_neg hz]
      exact lt_min (by norm_num) hmax
  · exact le_trans (min_le_right _ _) hmax'

theorem parallel_blocks_ok {T : Type} (hardware_concurrency : Nat) (range : List T)
    (hne : range ≠ []) (hlen : range.length + 24 < 2 ^ 64) :
    ∃ blocks, parallel_blocks hardware_concurrency range = Except.ok blocks ∧
      blocks.flatten = range := by
  have hpos : 0 < range.length := List.length_pos.mpr hne
  obtain ⟨hn0, hnle⟩ := num_threads_bounds hardware_concurrency range.length hpos hlen
  have h1 : range.length % 2 ^ 64 = range.length := Nat.mod_eq_of_lt (by omega)
  generalize hN : min (if hardware_concurrency % 2 ^ 32 ≠ 0 then
      hardware_concurrency % 2 ^ 32 else 2)
      (((range.length % 2 ^ 64 + 25 - 1) % 2 ^ 64) / 25) = N at hn0 hnle
  have hfit : (N - 1) * (range.length / N) ≤ range.length := by
    calc (N - 1) * (range.length / N) ≤ N * (range.length / N) :=
          Nat.mul_le_mul_right _ (Nat.sub_le N 1)
      _ ≤ range.length := Nat.mul_div_le _ _
  obtain ⟨blocks, rest, hs, hcat, _, _⟩ := spawn_blocks_ok (N - 1) (range.length / N) range hfit
  refine ⟨blocks ++ [rest], ?_, by simpa using hcat⟩
  have hN0 : N ≠ 0 := Nat.pos_iff_ne_zero.mp hn0
  rw [h1] at hN
  simp only [parallel_blocks, h1, hN, hN0, if_false, hs]

theorem sum_of_block_sums {T : Type} [AddMonoid T] (blocks : List (List T)) (init : T) :
    std_accumulate (blocks.map (fun block => accumulate_block block 0)) init
      = init + blocks.flatten.sum := by
  rw [std_accumulate_eq_sum, List.sum_flatten]
  congr 2
  apply List.map_congr_left
  intro b _
  simp [accumulate_block, std_accumulate_eq_sum]

/-- C14, the code at the failing input: on the empty range, whatever
`hardware_concurrency()` and `init` are, `max_threads` is `(0 + 25 - 1) / 25 = 0`,
so `num_threads = 0` and `block_size = length / num_threads` divides by zero, where
`std::accumulate` returns `init`. On every non-empty range (of fewer than
`2^64 - 24` elements) the blocks are cut without leaving the range, laid end to
end they are the range, and the result is that of `std::accumulate`, in every
result type whose addition is associative with 0 neutral (unbounded integers, and
integers that wrap modulo a power of two). -/
theorem parallel_accumulate_empty_range {T : Type} [AddMonoid T]
    (hardware_concurrency : Nat) (init : T) :
    parallel_accumulate hardware_concurrency [] init
      = Except.error Fault.division_by_zero ∧
    std_accumulate [] init = init ∧
    (∀ range : List T, range ≠ [] → range.length + 24 < 2 ^ 64 →
      parallel_accumulate hardware_concurrency range init
        = Except.ok (std_accumulate range init) ∧
      ∃ blocks, parallel_blocks hardware_concurrency range = Except.ok blocks ∧
        blocks.flatten = range) := by
  refine ⟨?_, rfl, ?_⟩
  · simp [parallel_accumulate, parallel_blocks]
  · intro range hne hlen
    obtain ⟨blocks, hb, hcat⟩ := parallel_blocks_ok hardware_concurrency range hne hlen
    refine ⟨?_, blocks, hb, hcat⟩
    simp only [parallel_accumulate, hb]
    rw [sum_of_block_sums, hcat, std_accumulate_eq_sum]

/-- C14 at concrete ranges: the empty range with 4 hardware threads; 60 ones with
4 hardware threads (three blocks of 20); and `2147483647, 1` summed in a 32-bit
`int`, where the sum wraps to `-2147483648`. -/
theorem parallel_accumulate_empty_range_witness :
    parallel_accumulate 4 [] (0 : Int) = Except.error Fault.division_by_zero ∧
    parallel_accumulate 4 (List.replicate 60 1) (0 : Int)
      = Except.ok (std_accumulate (List.replicate 60 1) 0) ∧
    parallel_accumulate 4 [2147483647, 1] (0 : ZMod (2 ^ 32))
      = Except.ok (-2147483648) :=
  ⟨(parallel_accumulate_empty_range 4 (0 : Int)).1,
    ((parallel_accumulate_empty_range 4 (0 : Int)).2.2 (List.replicate 60 1) (by decide)
      (by decide)).1,
    (((parallel_accumulate_empty_range 4 (0 : ZMod (2 ^ 32))).2.2 [2147483647, 1]
      (List.cons_ne_nil _ _) (by decide)).1).trans (congrArg Except.ok (by decide))⟩

/-! ## Theorems: `sequential_quicksort` -/

theorem sequential_quicksort_cons {T : Type} [LinearOrder T] (partition : std_partition T)
    (pivot : T) (rest : List T) :
    sequential_quicksort partition (pivot :: rest)
      = sequential_quicksort partition (partition.run (fun t => decide (t < pivot)) rest).1
        ++ pivot ::
          sequential_quicksort partition
            (partition.run (fun t => decide (t < pivot)) rest).2 := by
  rw [sequential_quicksort]

theorem partition_lengths {T : Type} (partition : std_partition T) (pred : T → Bool)
    (xs : List T) :
    (partition.run pred xs).1.length ≤ xs.length ∧
      (partition.run pred xs).2.length ≤ xs.length := by
  have h := (partition.perm pred xs).length_eq
  simp only [List.length_append] at h
  omega

theorem sequential_quicksort_perm_sorted {T : Type} [LinearOrder T]
    (partition : std_partition T) (n : Nat) :
    ∀ input : List T, input.length ≤ n →
      (sequential_quicksort partition input).Perm input ∧
        (sequential_quicksort partition input).Pairwise (fun a b => a ≤ b) := by
  induction n with
  | zero =>
    intro input h
    have : input = [] := List.eq_nil_of_length_eq_zero (Nat.le_zero.mp h)
    subst this
    rw [sequential_quicksort]
    exact ⟨List.Perm.refl _, List.Pairwise.nil⟩
  | succ n ih =>
    intro input h
    cases input with
    | nil =>
      rw [sequential_quicksort]
      exact ⟨List.Perm.refl _, List.Pairwise.nil⟩
    | cons pivot rest =>
      have hlen := partition_lengths partition (fun t => decide (t < pivot)) rest
      have hr : rest.length ≤ n := by simpa using h
      obtain ⟨hp1, hs1⟩ := ih (partition.run (fun t => decide (t < pivot)) rest).1
        (le_trans hlen.1 hr)
      obtain ⟨hp2, hs2⟩ := ih (partition.run (fun t => decide (t < pivot)) rest).2
        (le_trans hlen.2 hr)
      have hperm := partition.perm (fun t => decide (t < pivot)) rest
      rw [sequential_quicksort_cons]
      constructor
      · have h1 : (sequential_quicksort partition
              (partition.run (fun t => decide (t < pivot)) rest).1
            ++ pivot :: sequential_quicksort partition
              (partition.run (fun t => decide (t < pivot)) rest).2).Perm
            (pivot :: (sequential_quicksort partition
              (partition.run (fun t => decide (t < pivot)) rest).1
            ++ sequential_quicksort partition
              (partition.run (fun t => decide (t < pivot)) rest).2)) :=
          List.perm_middle
        exact h1.trans (List.Perm.cons _ ((hp1.append hp2).trans hperm))
      · rw [List.pairwise_append]
        refine ⟨hs1, ?_, ?_⟩
        · rw [List.pairwise_cons]
          refine ⟨?_, hs2⟩
          intro b hb
          have hb' := partition.back _ rest b (hp2.subset hb)
          have : ¬ b < pivot := by simpa using hb'
          exact not_lt.mp this
        · intro a ha b hb
          have ha' := partition.front _ rest a (hp1.subset ha)
          have hap : a < pivot := by simpa using ha'
          rcases List.mem_cons.mp hb with rfl | hb2
          · exact le_of_lt hap
          · have hb' := partition.back _ rest b (hp2.subset hb2)
            have : ¬ b < pivot := by simpa using hb'
            exact le_trans (le_of_lt hap) (not_lt.mp this)

/-- C15: for every list `input` over a totally ordered type, and however
`std::partition` orders the elements inside its two groups,
`sequential_quicksort(input)` (a total function: both recursive calls are on
lists strictly shorter than `input`) returns a list in which no element is
followed by one that is `<` it, that is a list in non-decreasing order, and that
is a permutation of `input`, every value occurring as often as in `input`; the
empty list is returned unchanged. -/
theorem sequential_quicksort_sorts {T : Type} [LinearOrder T] (partition : std_partition T)
    (input : List T) :
    (sequential_quicksort partition input).Pairwise (fun a b => ¬ b < a) ∧
    (sequential_quicksort partition input).Sorted (fun a b => a ≤ b) ∧
    (sequential_quicksort partition input).Perm input ∧
    (∀ x, (sequential_quicksort partition input).count x = input.count x) ∧
    sequential_quicksort partition ([] : List T) = [] ∧
    (∀ (pivot : T) (rest : List T), input = pivot :: rest →
      (partition.run (fun t => decide (t < pivot)) rest).1.length < input.length ∧
      (partition.run (fun t => decide (t < pivot)) rest).2.length < input.length ∧
      sequential_quicksort partition input
        = sequential_quicksort partition
            (partition.run (fun t => decide (t < pivot)) rest).1
          ++ pivot :: sequential_quicksort partition
            (partition.run (fun t => decide (t < pivot)) rest).2) := by
  obtain ⟨hp, hs⟩ := sequential_quicksort_perm_sorted partition input.length input (le_refl _)
  refine ⟨?_, hs, hp, fun x => hp.count_eq x, by rw [sequential_quicksort], ?_⟩
  · exact hs.imp (fun h => not_lt.mpr h)
  · intro pivot rest hi
    subst hi
    have hlen := partition_lengths partition (fun t => decide (t < pivot)) rest
    refine ⟨?_, ?_, sequential_quicksort_cons partition pivot rest⟩
    · simp only [List.length_cons]; omega
    · simp only [List.length_cons]; omega

/-- C15 at a concrete list, with the order-keeping partition. -/
theorem sequential_quicksort_sorts_witness :
    sequential_quicksort (stable_partition Nat) [3, 1, 2, 3, 0] = [0, 1, 2, 3, 3] ∧
    (sequential_quicksort (stable_partition Nat) [3, 1, 2, 3, 0]).Perm [3, 1, 2, 3, 0] :=
  ⟨by simp [sequential_quicksort, stable_partition],
    (sequential_quicksort_sorts (stable_partition Nat) [3, 1, 2, 3, 0]).2.2.1⟩

/-! ## Theorems: no circular wait -/

theorem exec_world_call (tid : Nat) (s : ThreadRun) (c : Call) :
    (s.exec tid c).2.world = (s.world.call tid c).2 := by
  cases c with
  | lock self =>
    simp only [ThreadRun.exec, World.call]
    rcases h : s.world.lock tid self with ⟨o, w'⟩
    cases o <;> rfl
  | try_lock self =>
    simp only [ThreadRun.exec, World.call]
    rcases h : s.world.try_lock tid self with ⟨o, w'⟩
    cases o with
    | returned b => cases b <;> rfl
    | threw e => rfl
    | blocked => rfl
  | unlock self =>
    simp only [ThreadRun.exec, World.call]
    rcases h : s.world.unlock tid self with ⟨o, w'⟩
    cases o <;> rfl

theorem inv_frame (t' x : Nat) (w w' : World) (held : List Nat)
    (h : ThreadRun.inv t' { world := w, held := held })
    (hm : ∀ m, m ≠ x → w'.mutexes m = w.mutexes m)
    (hl : w'.this_thread_hierarchy_value t' = w.this_thread_hierarchy_value t')
    (ho : w.owns t' x = false) (ho' : w'.owns t' x = false) :
    ThreadRun.inv t' { world := w', held := held } := by
  obtain ⟨hc, hown⟩ := h
  have hx : x ∉ held := by
    intro hmem
    have := (hown x).mpr hmem
    simp only at this
    rw [ho] at this
    cases this
  constructor
  · simp only at hc ⊢
    rw [hl]
    refine (chain_congr w w' held _ ?_).mpr hc
    intro m hmem
    exact hm m (fun e => hx (e ▸ hmem))
  · intro m
    simp only at hown ⊢
    by_cases hmx : m = x
    · subst hmx
      rw [ho']
      simp [hx]
    · rw [← hown m]
      simp [World.owns, hm m hmx]

theorem sys_inv_call (w : World) (tid : Nat) (c : Call)
    (h : ∀ t, ∃ held, ThreadRun.inv t { world := w, held := held })
    (hu : c = Call.unlock c.target → w.owns tid c.target = true) :
    ∀ t, ∃ held, ThreadRun.inv t { world := (w.call tid c).2, held := held } := by
  intro t
  obtain ⟨held, hinv⟩ := h tid
  have hw := exec_world_call tid { world := w, held := held } c
  simp only at hw
  by_cases ht : t = tid
  · subst ht
    refine ⟨(ThreadRun.exec t { world := w, held := held } c).2.held, ?_⟩
    have := inv_exec t { world := w, held := held } c hinv (fun hc _ => hu hc)
    rw [← hw]
    exact this
  · obtain ⟨held', hinv'⟩ := h t
    refine ⟨held', ?_⟩
    rw [← hw]
    rcases exec_cases tid { world := w, held := held } c with h1 | ⟨_, _, ho, _, h2⟩ | ⟨hc, _, h3⟩
    · rw [h1]
      exact hinv'
    · rw [h2]
      refine inv_frame t c.target w _ held' hinv' ?_ ?_ ?_ ?_
      · intro m hm
        simp [Function.update_noteq hm]
      · simp [Function.update_noteq ht]
      · simp only at ho
        simp [World.owns, ho]
      · simp only [World.owns, Function.update_same]
        simpa using fun e => ht e.symm
    · rw [h3]
      have hown := hu hc
      refine inv_frame t c.target w _ held' hinv' ?_ ?_ ?_ ?_
      · intro m hm
        simp [Function.update_noteq hm]
      · simp [Function.update_noteq ht]
      · simp only [World.owns, decide_eq_true_eq] at hown
        simp only [World.owns, hown]
        simpa using fun e => ht e.symm
      · simp [World.owns]

theorem sys_inv_schedule (sched : List (Nat × Call)) :
    ∀ w : World, (∀ t, ∃ held, ThreadRun.inv t { world := w, held := held }) →
      w.scoped sched = true →
      ∀ t, ∃ held, ThreadRun.inv t { world := w.schedule sched, held := held } := by
  induction sched with
  | nil => intro w h _; exact h
  | cons e rest ih =>
    intro w h hs
    obtain ⟨tid, c⟩ := e
    simp only [World.scoped, Bool.and_eq_true] at hs
    obtain ⟨h1, h2⟩ := hs
    have hu : c = Call.unlock c.target → w.owns tid c.target = true := by
      intro hc
      cases c with
      | lock self => cases hc
      | try_lock self => cases hc
      | unlock self => simpa [Call.target] using h1
    exact ih _ (sys_inv_call w tid c h hu) h2

theorem fresh_sys_inv (w : World) (h : w.fresh) :
    ∀ t, ∃ held, ThreadRun.inv t { world := w, held := held } := by
  intro t
  refine ⟨[], h.1 t, ?_⟩
  intro m
  simp [World.owns, h.2 m]

theorem waits_for_level_lt (w : World)
    (h : ∀ t, ∃ held, ThreadRun.inv t { world := w, held := held }) (t t' : Nat)
    (hw : w.waits_for t t') :
    w.this_thread_hierarchy_value t' < w.this_thread_hierarchy_value t := by
  obtain ⟨m, hb, ho⟩ := hw
  have hlt : w.value m < w.this_thread_hierarchy_value t := by
    by_contra hno
    rw [World.lock_threw w t m (Nat.not_lt.mp hno)] at hb
    cases hb
  obtain ⟨held, hc, hown⟩ := h t'
  have hm : m ∈ held := (hown m).mp ho
  have := chain_le w held _ hc m hm
  simp only at this
  omega

theorem waits_for_trans_level_lt (w : World)
    (h : ∀ t, ∃ held, ThreadRun.inv t { world := w, held := held }) (a b : Nat)
    (hab : Relation.TransGen w.waits_for a b) :
    w.this_thread_hierarchy_value b < w.this_thread_hierarchy_value a := by
  induction hab with
  | single hw => exact waits_for_level_lt w h _ _ hw
  | tail _ hw ih => exact lt_trans (waits_for_level_lt w h _ _ hw) ih

theorem listing_3_7_fresh : listing_3_7.fresh :=
  ⟨fun _ => rfl, listing_3_7_free⟩

/-- C16: from the world at program start (every level `ULONG_MAX`, every internal
mutex free), after any interleaving of `lock()`, `try_lock()` and `unlock()` calls
of any number of threads on `hierarchical_mutex` objects in which every
`unlock()` is made by the thread owning the object, a thread that waits in
`lock()` for an object owned by another thread has a strictly larger level than
that thread; hence there is no circular wait: no thread is reached from itself by
following "blocked in `lock()` on an object owned by" one or more times. -/
theorem hierarchical_mutex_no_circular_wait (w0 : World) (sched : List (Nat × Call))
    (h0 : w0.fresh) (hs : w0.scoped sched = true) :
    (∀ t t', (w0.schedule sched).waits_for t t' →
      (w0.schedule sched).this_thread_hierarchy_value t'
        < (w0.schedule sched).this_thread_hierarchy_value t) ∧
    ∀ t, ¬ Relation.TransGen (w0.schedule sched).waits_for t t := by
  have hinv := sys_inv_schedule sched w0 (fresh_sys_inv w0 h0) hs
  refine ⟨fun t t' hw => waits_for_level_lt _ hinv t t' hw, ?_⟩
  intro t hcyc
  exact lt_irrefl _ (waits_for_trans_level_lt _ hinv t t hcyc)

/-- C16 at listing 3.7: thread 0 holds `high_level_mutex`, thread 1 holds
`low_level_mutex`; thread 0 then waits for thread 1, and no thread waits for
itself through any chain. -/
theorem hierarchical_mutex_no_circular_wait_witness :
    (listing_3_7.schedule [(0, Call.lock 0), (1, Call.lock 1)]).waits_for 0 1 ∧
    ¬ Relation.TransGen
        (listing_3_7.schedule [(0, Call.lock 0), (1, Call.lock 1)]).waits_for 0 0 :=
  ⟨⟨1, by decide, by decide⟩,
    (hierarchical_mutex_no_circular_wait listing_3_7 [(0, Call.lock 0), (1, Call.lock 1)]
      listing_3_7_fresh (by decide)).2 0⟩

/-! ## Theorems: the sentinel level -/

/-- C17 as stated fails: `hierarchical_mutex(ULONG_MAX)` can be constructed, its
hierarchy value is `ULONG_MAX`, which the sentinel is not strictly larger than;
a thread holding no lock, at level `ULONG_MAX`, gets `std::logic_error` from both
`lock()` and `try_lock()` on it. -/
theorem sentinel_not_above_max_counterexample :
    (hierarchical_mutex.new ULONG_MAX).hierarchy_value = ULONG_MAX ∧
    ¬ (hierarchical_mutex.new ULONG_MAX).hierarchy_value < ULONG_MAX ∧
    ThreadRun.initial 0 { world := max_value_world, held := [] } ∧
    (max_value_world.lock 0 0).1 = Outcome.threw Exn.logic_error ∧
    (max_value_world.try_lock 0 0).1 = Outcome.threw Exn.logic_error := by
  refine ⟨by decide, by decide, ⟨rfl, rfl, fun m => rfl⟩, by decide, by decide⟩

/-- C17, amended: in every state a thread reaches from its start by `lock()`,
`try_lock()` and `unlock()` calls with `unlock()` called only on objects it owns,
a thread that holds no hierarchical lock has the level `ULONG_MAX`; this sentinel
is greater than or equal to the hierarchy value of every `hierarchical_mutex` that
can be constructed, and strictly greater exactly when that value is not
`ULONG_MAX` itself; hence for a thread at the sentinel level `lock()` and
`try_lock()` pass the ordering check on every `hierarchical_mutex` whose
`unsigned long` hierarchy value is not `ULONG_MAX`, and throw on one whose
hierarchy value is `ULONG_MAX`. -/
theorem sentinel_above_smaller_values (tid : Nat) :
    (∀ (s0 : ThreadRun) (cs : List Call),
      ThreadRun.initial tid s0 → ThreadRun.unlocks_owned tid s0 cs = true →
      (∀ m, (ThreadRun.run tid s0 cs).world.owns tid m = false) →
      (ThreadRun.run tid s0 cs).world.this_thread_hierarchy_value tid = ULONG_MAX) ∧
    (∀ value : Nat,
      (hierarchical_mutex.new value).hierarchy_value ≤ ULONG_MAX ∧
      ((hierarchical_mutex.new value).hierarchy_value < ULONG_MAX ↔
        value % 2 ^ 64 ≠ ULONG_MAX)) ∧
    (∀ (w : World) (self : Nat),
      w.this_thread_hierarchy_value tid = ULONG_MAX → w.value self ≤ ULONG_MAX →
      ((w.lock tid self).1 = Outcome.threw Exn.logic_error ↔ w.value self = ULONG_MAX) ∧
      ((w.try_lock tid self).1 = Outcome.threw Exn.logic_error ↔
        w.value self = ULONG_MAX)) := by
  refine ⟨?_, ?_, ?_⟩
  · intro s0 cs h0 hu hnone
    obtain ⟨hc, hown⟩ := inv_run_owned tid cs s0 (initial_inv tid s0 h0) hu
    have hh : (ThreadRun.run tid s0 cs).held = [] := by
      apply List.eq_nil_iff_forall_not_mem.mpr
      intro m hm
      have := (hown m).mpr hm
      rw [hnone m] at this
      cases this
    rw [hh] at hc
    exact hc
  · intro value
    have hlt : value % 2 ^ 64 < 2 ^ 64 := Nat.mod_lt _ (by norm_num)
    simp only [hierarchical_mutex.new, ULONG_MAX]
    omega
  · intro w self hl hv
    rw [World.lock_threw_iff, World.try_lock_threw_iff, hl]
    omega

/-- C17 at listing 3.7: a thread holding nothing passes the check of `lock()` on
`high_level_mutex`, whose hierarchy value 10000 is not `ULONG_MAX`. -/
theorem sentinel_above_smaller_values_witness :
    ¬ (listing_3_7.lock 0 0).1 = Outcome.threw Exn.logic_error :=
  fun h =>
    absurd (((sentinel_above_smaller_values 0).2.2 listing_3_7 0 rfl (by decide)).1.mp h)
      (by decide)

end CCIA
